import Mathlib

/-!
Verification of the vocabulary-tree query utility

Shallow embedding of `src/software/utils/main_voctreeQueryUtility.cpp`
(AliceVision): the vocabulary-tree query utility that builds a database of
sparse histograms, queries it (or sanity-checks it against itself), reports
the ranked matches and proposes descriptor correspondences from shared
visual words.

Containers: a `std::map<K, V>` with integer keys is a list of key/value pairs
in iteration order; the container invariant (strictly ascending keys) is the
predicate `WellFormed`, assumed where a statement needs it. `std::vector` is
`List`. `std::size_t` / `IndexT` values are `Nat`.
-/

namespace VoctreeQuery

/-! ## Data model -/

/-- A visual word id (`aliceVision::voctree::Word`). -/
abbrev Word := Nat

/-- A descriptor index inside one image (`aliceVision::IndexT`). -/
abbrev IndexT := Nat

/-- A document (image) id. -/
abbrev DocId := Nat

/-- The type `voctree::SparseHistogram`: `std::map<Word, std::vector<IndexT>>`. -/
abbrev SparseHistogram := List (Word × List IndexT)

/-- The type `voctree::SparseHistogramPerImage`: `std::map<DocId, SparseHistogram>`. -/
abbrev SparseHistogramPerImage := List (DocId × SparseHistogram)

/-- The type `matching::IndMatch`, as built by `IndMatch(i, j)` (the distance
argument exists only under `ALICEVISION_DEBUG_MATCHING`). -/
structure IndMatch where
  i : IndexT
  j : IndexT
deriving DecidableEq, Repr

/-- The type `matching::IndMatches`. -/
abbrev IndMatches := List IndMatch

/-- The invariant of `std::map`: keys strictly ascending in iteration order. -/
def WellFormed {β : Type} (m : List (Nat × β)) : Prop :=
  (m.map Prod.fst).Pairwise (fun a b => a < b)

instance {β : Type} (m : List (Nat × β)) : Decidable (WellFormed m) := by
  unfold WellFormed; infer_instance

/-- The call `std::map::find`: the value stored under `key`, `none` for `end()`. -/
def find {β : Type} : List (Nat × β) → Nat → Option β
  | [], _ => none
  | (k, v) :: rest, key => if k = key then some v else find rest key

/-! ## The correspondence loop (main, lines 463-490) -/

/-- One iteration of `for (const auto& currentLeaf: currentHistogram)`:
the body either leaves `featureMatches` as it is (`continue`, or the outer
`if` not taken) or pushes one `IndMatch`. -/
def leafStep (comparedHistogram : SparseHistogram) (featureMatches : IndMatches)
    (currentLeaf : Word × List IndexT) : IndMatches :=
  if currentLeaf.2.length = 1 then
    match find comparedHistogram currentLeaf.1 with
    | none => featureMatches
    | some leafRight =>
      if leafRight.length ≠ 1 then featureMatches
      else featureMatches ++ [⟨currentLeaf.2.getD 0 0, leafRight.getD 0 0⟩]
  else featureMatches

/-- The whole loop: `featureMatches` starts empty and every leaf of
`currentHistogram` is visited in map order. -/
def featureMatches (currentHistogram comparedHistogram : SparseHistogram) : IndMatches :=
  currentHistogram.foldl (leafStep comparedHistogram) []

/-- Following the specification's words (section 4.5): the pair to emit
for visual word `w`, when `w` carries exactly one descriptor on each side. -/
def specPair (first second : SparseHistogram) (w : Word) : Option IndMatch :=
  match find first w, find second w with
  | some [i], some [j] => some ⟨i, j⟩
  | _, _ => none

/-- Following the specification's words: the correspondences of two
documents, visual words taken in ascending order below `bound`. -/
def specCorrespondences (first second : SparseHistogram) (bound : Nat) : IndMatches :=
  (List.range bound).filterMap (specPair first second)

/-- Following the specification's words: `w` is present with exactly one
descriptor in both documents. -/
def singletonInBoth (first second : SparseHistogram) (w : Word) : Bool :=
  (specPair first second w).isSome

/-! ## Rendering of numbers on a stream -/

/-- The character of one decimal digit. -/
def digitChar (d : Nat) : Char :=
  match d with
  | 0 => '0' | 1 => '1' | 2 => '2' | 3 => '3' | 4 => '4'
  | 5 => '5' | 6 => '6' | 7 => '7' | 8 => '8' | _ => '9'

/-- The decimal digits of `n` put in front of `acc`, most significant first. -/
def decimalCore : Nat → Nat → List Char → List Char
  | 0, _, acc => acc
  | fuel + 1, n, acc =>
    if n < 10 then digitChar n :: acc
    else decimalCore fuel (n / 10) (digitChar (n % 10) :: acc)

/-- The characters written by `os << n` for an unsigned integer `n`. -/
def decimal (n : Nat) : List Char := decimalCore (n + 1) n []

/-- The text written by `os << n` for an unsigned integer `n`. -/
def toText (n : Nat) : String := ⟨decimal n⟩

/-- The function `myToString` (lines 69-74):
`ss << std::setw(zeroPadding) << std::setfill('0') << i`. -/
def myToString (i zeroPadding : Nat) : String :=
  ⟨List.replicate (zeroPadding - (decimal i).length) '0' ++ decimal i⟩

/-! ## saveSparseHistogramPerImage (lines 76-92) -/

/-- The body of `for(const auto& d: docs)`: what one document appends to
`fileout`. -/
def writeDocument (fileout : String) (d : DocId × SparseHistogram) : String :=
  let fileout := fileout ++ "d\x7b" ++ toText d.1 ++ "\x7d = ["
  let fileout := d.2.foldl (fun out i => out ++ toText i.1 ++ ", ") fileout
  fileout ++ "]\n"

/-- The function `saveSparseHistogramPerImage`: the returned flag and the
text written to the file; `isOpen` is the result of `fileout.is_open()`. -/
def saveSparseHistogramPerImage ( isOpen : Bool) (docs : SparseHistogramPerImage) :
    Bool × String :=
  if !isOpen then (false, "")
  else (true, docs.foldl writeDocument "")

/-! ## The program: options, collaborators, events -/

/-- A similarity score; `main` only carries scores around and prints them. -/
abbrev Score := Int

/-- The type `voctree::DocMatch`. -/
structure DocMatch where
  id : DocId
  score : Score
deriving DecidableEq, Repr

/-- The type `voctree::DocMatches`. -/
abbrev DocMatches := List DocMatch

/-- The views of an `SfMData`: view id to image path. -/
abbrev Views := List (DocId × String)

/-- The parts of an `SfMData` requested from `sfm::Load`. -/
inductive ESfMData where
  | VIEWS
  | VIEWS_INTRINSICS
deriving DecidableEq, Repr

/-- The describer types `main` tells apart. -/
inductive EImageDescriberType where
  | SIFT
  | SIFT_FLOAT
  | OTHER
deriving DecidableEq, Repr

/-- The variables filled by the option parser (lines 110-177); an option
that was not given (`vm.count(..) == 0`) is `none` and leaves its
`std::string` empty. -/
structure Options where
  weights : Option String
  tree : String
  keylist : String
  featuresFolder : String
  querylist : Option String
  saveDocumentMap : Option String
  outdir : Option String
  describerMethod : String
  results : Nat
  matlab : Bool
  outfile : Option String
  Nmax : Int
  distance : String
deriving DecidableEq, Repr

/-- What the command line parser delivers (lines 181-204). -/
inductive CommandLine where
  | help
  | requiredOption
  | error
  | parsed (o : Options)

/-- The collaborators of `main` that are not part of the utility: the
library calls and the file system, each given by its result. -/
structure Env where
  /-- The `VocabularyTree` constructor returns (it throws otherwise). -/
  treeLoads : Bool
  /-- The call `db.loadWeights` returns (it throws otherwise). -/
  weightsLoad : Bool
  /-- The result of `populateDatabase`. -/
  numTotFeatures : Nat
  /-- The result of `db.getSparseHistogramPerImage()` after population. -/
  dbHistograms : SparseHistogramPerImage
  /-- The result of `db.size()` after population. -/
  dbSize : Nat
  /-- The result of `fileout.is_open()` for the document map file. -/
  canOpen : String → Bool
  /-- The map filled by `db.sanityCheck(numResults, allDocMatches)`. -/
  sanityCheck : Nat → List (DocId × DocMatches)
  /-- The maps filled by `queryDatabase(queryList, featuresFolder, tree, db,
  numResults, allDocMatches, histograms, distance, Nmax)`; `none` when it throws. -/
  queryDatabase : String → String → Nat → String → Int →
    Option (List (DocId × DocMatches) × List (DocId × SparseHistogram))
  /-- The views read by `sfm::Load`; `none` when it returns false. -/
  sfmLoad : String → ESfMData → Option Views
  /-- The result of `bfs::path(p).extension().string()`. -/
  extension : String → String
  /-- The result of `bfs::path(p).filename()`. -/
  filename : String → String
  /-- The result of `bfs::exists`. -/
  pathExists : String → Bool
  /-- The path `a / b`. -/
  pathAppend : String → String → String
  /-- The result of `stlplus::create_filespec`. -/
  createFilespec : String → String → String → String
  /-- Whether `Init_region_type_from_file` returns a non-null pointer. -/
  initRegionType : String → Bool
  /-- The result of `EImageDescriberType_stringToEnum`; `none` when it throws. -/
  stringToEnum : String → Option EImageDescriberType
  /-- The result of `sfm::loadRegionsPerView`. -/
  loadRegionsPerView : Views → String → EImageDescriberType → Bool
  /-- The result of `std::to_string(score)`. -/
  scoreToString : Score → String

/-- What a run does that can be observed from outside, in order: calls of
the collaborators, diagnostics, and output. -/
inductive Event where
  | usage
  | cerr (msg : String)
  | loadTree (treeName : String)
  | loadWeights (weightsName : String)
  | populateDatabase (keylist featuresFolder : String) (Nmax : Int)
  | saveDocumentMap (file : String) (written : Bool × String)
  | computeTfIdfWeights
  | openOutfile (outfile : String)
  | sanityCheck (numResults : Nat)
  | queryDatabase (queryList featuresFolder : String) (numResults : Nat)
      (distance : String) (Nmax : Int)
  | sfmLoad (file : String) (flags : ESfMData)
  | createDirectories (dir : String)
  | initRegionType (file : String)
  | loadRegionsPerView (matchDir : String)
  | logCamera (doc : DocId)
  | logBest (doc : DocId) (numMatches : Nat) (best : DocMatch)
  | fileCamera (doc : DocId)
  | fileMatlab (index : Nat) (ms : DocMatches)
  | createSymlink (target link : String)
  | storeMatches (pair : DocId × DocId) (ms : IndMatches)
  | logMatch (m : DocMatch)
  | fileMatch (doc : DocId) (m : DocMatch)
  | wrongMatch (doc : DocId)
  | wrongTotal (wrong : Nat)
  | noWrongMatches
  | closeOutfile
deriving DecidableEq, Repr

/-- How a run ends. -/
inductive Outcome where
  | EXIT_SUCCESS
  | EXIT_FAILURE
  /-- An exception leaves `main`. -/
  | uncaughtException (what : String)
  /-- An unchecked read outside a vector. -/
  | undefinedBehaviour (what : String)
deriving DecidableEq, Repr

/-- A finished run: what it did and how it ended. -/
structure Run where
  trace : List Event
  outcome : Outcome
deriving DecidableEq, Repr

/-- The values the reporting loop reads but does not change. -/
structure Ctx where
  env : Env
  withOutput : Bool
  withOutDir : Bool
  withQuery : Bool
  matlabOutput : Bool
  outDir : String
  /-- The views of `sfmdata` (loaded from the key list). -/
  sfmdata : Views
  /-- The views behind the pointer `sfmdataQuery`. -/
  sfmdataQuery : Views
  /-- The map `histograms`, filled by `queryDatabase` only. -/
  histograms : List (DocId × SparseHistogram)

/-- The variables the reporting loop changes. -/
structure LoopState where
  trace : List Event
  wrong : Nat
deriving DecidableEq, Repr

/-! ## The reporting loop (main, lines 406-537) -/

/-- The loop `for (const auto comparedPicture : matches)` (lines 451-493):
`histograms.at` throws for an id the map does not hold; otherwise the
matches of the pair are computed and stored in `allMatches`. -/
def correspondencePass (c : Ctx) (doc : DocId) (currentHistogram : SparseHistogram) :
    DocMatches → List Event → Except Run (List Event)
  | [], tr => .ok tr
  | comparedPicture :: rest, tr =>
    match find c.histograms comparedPicture.id with
    | none => .error ⟨tr, .uncaughtException "std::out_of_range"⟩
    | some comparedHistogram =>
      correspondencePass c doc currentHistogram rest
        (tr ++ [.storeMatches (doc, comparedPicture.id)
          (featureMatches currentHistogram comparedHistogram)])

/-- The block `if(withOutDir)` at the head of the loop body (lines 424-494);
it yields the trace and `dirname`. -/
def outDirBlock (c : Ctx) (doc : DocId) (ms : DocMatches) (tr : List Event) :
    Except Run (List Event × String) :=
  match find c.sfmdataQuery doc with
  | none =>
    .error ⟨tr ++ [.cerr ("Could not find the image file for the document "
      ++ toText doc ++ "!")], .EXIT_FAILURE⟩
  | some imagePath =>
    let sylinkName := c.env.filename imagePath
    let dirname := c.env.pathAppend c.outDir sylinkName
    let tr := tr ++ [.createDirectories dirname,
      .createSymlink imagePath (c.env.pathAppend dirname sylinkName)]
    match find c.histograms doc with
    | none => .error ⟨tr, .uncaughtException "std::out_of_range"⟩
    | some currentHistogram =>
      match correspondencePass c doc currentHistogram ms tr with
      | .error r => .error r
      | .ok tr => .ok (tr, dirname)

/-- The loop `for(std::size_t j = 0; j < matches.size(); ++j)` (lines
497-526), entered at index `j` with the matches from `j` on. -/
def matchLoop (c : Ctx) (doc : DocId) (dirname : String) :
    Nat → DocMatches → List Event → Except Run (List Event)
  | _, [], tr => .ok tr
  | j, m :: rest, tr =>
    let tr := tr ++ [.logMatch m]
    let tr := if c.withOutput && !c.matlabOutput then tr ++ [.fileMatch doc m] else tr
    if c.withOutDir then
      match find c.sfmdata m.id with
      | some absoluteFilename =>
        let sylinkName := myToString j 4 ++ "." ++ c.env.scoreToString m.score ++ "."
          ++ c.env.filename absoluteFilename
        matchLoop c doc dirname (j + 1) rest
          (tr ++ [.createSymlink absoluteFilename (c.env.pathAppend dirname sylinkName)])
      | none =>
        .error ⟨tr ++ [.cerr ("Could not find the image file for the document "
          ++ toText m.id ++ "!")], .EXIT_FAILURE⟩
    else matchLoop c doc dirname (j + 1) rest tr

/-- The body of `for(auto docMatches: allDocMatches)` (lines 407-537). -/
def reportDocument (c : Ctx) (s : LoopState) (docMatches : DocId × DocMatches) :
    Except Run LoopState :=
  let tr := s.trace ++ [.logCamera docMatches.1]
  match docMatches.2.head? with
  | none => .error ⟨tr, .undefinedBehaviour "matches[0]"⟩
  | some best =>
    let tr := tr ++ [.logBest docMatches.1 docMatches.2.length best]
    let tr :=
      if c.withOutput then
        if !c.matlabOutput then tr ++ [.fileCamera docMatches.1]
        else tr ++ [.fileMatlab (docMatches.1 + 1) docMatches.2]
      else tr
    match (if c.withOutDir then outDirBlock c docMatches.1 docMatches.2 tr
        else .ok (tr, "")) with
    | .error r => .error r
    | .ok (tr, dirname) =>
      match matchLoop c docMatches.1 dirname 0 docMatches.2 tr with
      | .error r => .error r
      | .ok tr =>
        if !c.withQuery then
          if docMatches.1 ≠ best.id then
            .ok ⟨tr ++ [.wrongMatch docMatches.1], s.wrong + 1⟩
          else .ok ⟨tr, s.wrong⟩
        else .ok ⟨tr, s.wrong⟩

/-- The loop `for(auto docMatches: allDocMatches)`. -/
def reportLoop (c : Ctx) : List (DocId × DocMatches) → LoopState → Except Run LoopState
  | [], s => .ok s
  | docMatches :: rest, s =>
    match reportDocument c s docMatches with
    | .error r => .error r
    | .ok s => reportLoop c rest s

/-! ## main (lines 108-578) -/

/-- The value of `queryList.substr(0, queryList.find_last_of("/\\"))`. -/
def matchDirOf (queryList : String) : String :=
  let cs := queryList.data
  match (List.range cs.length).reverse.find?
      (fun p => cs.getD p ' ' == '/' || cs.getD p ' ' == Char.ofNat 92) with
  | none => queryList
  | some pos => ⟨cs.take pos⟩

/-- The flag `withOutDir` as set by lines 218-226. -/
def withOutDirOf (o : Options) (env : Env) : Bool :=
  match o.outdir with
  | none => false
  | some _ =>
    let withOutDir := env.extension o.keylist == ".json"
    if withOutDir && o.querylist.isSome then
      withOutDir && (env.extension (o.querylist.getD "") == ".json")
    else withOutDir

/-- Lines 564-577: the wrong-match report and the normal end of the run. -/
def finish (c : Ctx) (s : LoopState) : Run :=
  let tr := s.trace
  let tr :=
    if !c.withQuery then
      if s.wrong ≠ 0 then tr ++ [.wrongTotal s.wrong] else tr ++ [.noWrongMatches]
    else tr
  let tr := if c.withOutput then tr ++ [.closeOutfile] else tr
  ⟨tr, .EXIT_SUCCESS⟩

/-- Lines 368-537: the unconditional load from `queryList`, the regions,
and the reporting loop. -/
def loadAndReport (o : Options) (env : Env) (sfmdata sfmdataQuery : Views)
    (allDocMatches : List (DocId × DocMatches))
    (histograms : List (DocId × SparseHistogram)) (tr : List Event) : Run :=
  let queryList := o.querylist.getD ""
  let tr := tr ++ [.sfmLoad queryList .VIEWS_INTRINSICS]
  match env.sfmLoad queryList .VIEWS_INTRINSICS with
  | none =>
    ⟨tr ++ [.cerr ("The input SfMData file \"" ++ queryList ++ "\" cannot be read.")],
      .EXIT_FAILURE⟩
  | some sfmData =>
    let matchDir := matchDirOf queryList
    let sImageDescriber := env.createFilespec matchDir "image_describer" "json"
    let tr := tr ++ [.initRegionType sImageDescriber]
    if !env.initRegionType sImageDescriber then
      ⟨tr ++ [.cerr ("Invalid: " ++ sImageDescriber ++ " regions type file.")], .EXIT_FAILURE⟩
    else
      match env.stringToEnum o.describerMethod with
      | none => ⟨tr, .uncaughtException "EImageDescriberType_stringToEnum"⟩
      | some describerType =>
        if describerType ≠ .SIFT && describerType ≠ .SIFT_FLOAT then
          ⟨tr ++ [.cerr "Invalid describer method."], .EXIT_FAILURE⟩
        else
          let tr := tr ++ [.loadRegionsPerView matchDir]
          if !env.loadRegionsPerView sfmData matchDir describerType then
            ⟨tr ++ [.cerr "Invalid regions."], .EXIT_FAILURE⟩
          else
            let c : Ctx :=
              { env := env, withOutput := o.outfile.isSome,
                withOutDir := withOutDirOf o env, withQuery := o.querylist.isSome,
                matlabOutput := o.matlab, outDir := o.outdir.getD "",
                sfmdata := sfmdata, sfmdataQuery := sfmdataQuery,
                histograms := histograms }
            match reportLoop c allDocMatches ⟨tr, 0⟩ with
            | .error r => r
            | .ok s => finish c s

/-- Lines 325-366: with `withOutDir`, the SfM data of the key list and of the
query list are loaded and the output folder is created. -/
def outDirSetup (o : Options) (env : Env) (allDocMatches : List (DocId × DocMatches))
    (histograms : List (DocId × SparseHistogram)) (tr : List Event) : Run :=
  if withOutDirOf o env then
    let tr := tr ++ [.sfmLoad o.keylist .VIEWS]
    match env.sfmLoad o.keylist .VIEWS with
    | none =>
      ⟨tr ++ [.cerr ("Could not load the sfm_data file " ++ o.keylist ++ "!")], .EXIT_FAILURE⟩
    | some sfmdata =>
      let outDir := o.outdir.getD ""
      let mkdir : List Event :=
        if !env.pathExists outDir then [.createDirectories outDir] else []
      if o.querylist.isSome then
        let queryList := o.querylist.getD ""
        let tr := tr ++ [.sfmLoad queryList .VIEWS]
        match env.sfmLoad queryList .VIEWS with
        | none =>
          ⟨tr ++ [.cerr ("Could not load the sfm_data file " ++ queryList ++ "!")],
            .EXIT_FAILURE⟩
        | some sfmdataQuery =>
          loadAndReport o env sfmdata sfmdataQuery allDocMatches histograms (tr ++ mkdir)
      else
        loadAndReport o env sfmdata sfmdata allDocMatches histograms (tr ++ mkdir)
  else
    loadAndReport o env [] [] allDocMatches histograms tr

/-- Lines 296-323: the result-count sentinel, then the sanity check or the
queries. -/
def queryStage (o : Options) (env : Env) (tr : List Event) : Run :=
  let numImageQuery := if o.results = 0 then env.dbSize else o.results
  let tr := if o.outfile.isSome then tr ++ [.openOutfile (o.outfile.getD "")] else tr
  if !o.querylist.isSome then
    outDirSetup o env (env.sanityCheck numImageQuery) []
      (tr ++ [.sanityCheck numImageQuery])
  else
    let queryList := o.querylist.getD ""
    let tr := tr ++ [.queryDatabase queryList o.featuresFolder numImageQuery o.distance o.Nmax]
    match env.queryDatabase queryList o.featuresFolder numImageQuery o.distance o.Nmax with
    | none => ⟨tr, .uncaughtException "queryDatabase"⟩
    | some (allDocMatches, histograms) => outDirSetup o env allDocMatches histograms tr

/-- Lines 233-289: the tree, the database, the optional weights file, the
population and its check, the document map, the computed weights. -/
def buildDatabase (o : Options) (env : Env) : Run :=
  let tr : List Event := [.loadTree o.tree]
  if !env.treeLoads then ⟨tr, .uncaughtException "VocabularyTree"⟩
  else
    let withWeights := o.weights.isSome
    let tr := if withWeights then tr ++ [.loadWeights (o.weights.getD "")] else tr
    if withWeights && !env.weightsLoad then ⟨tr, .uncaughtException "loadWeights"⟩
    else
      let tr := tr ++ [.populateDatabase o.keylist o.featuresFolder o.Nmax]
      if env.numTotFeatures = 0 then
        ⟨tr ++ [.cerr "No descriptors loaded!!"], .EXIT_FAILURE⟩
      else
        let tr :=
          match o.saveDocumentMap with
          | some documentMapFile =>
            tr ++ [.saveDocumentMap documentMapFile
              (saveSparseHistogramPerImage (env.canOpen documentMapFile) env.dbHistograms)]
          | none => tr
        let tr := if !withWeights then tr ++ [.computeTfIdfWeights] else tr
        queryStage o env tr

/-- The program: the parsed command line and the collaborators give the run. -/
def main (cl : CommandLine) (env : Env) : Run :=
  match cl with
  | .help => ⟨[.usage], .EXIT_SUCCESS⟩
  | .requiredOption => ⟨[.cerr "ERROR: ", .usage], .EXIT_FAILURE⟩
  | .error => ⟨[.cerr "ERROR: ", .usage], .EXIT_FAILURE⟩
  | .parsed o => buildDatabase o env

/-! ## Proof devices -/

/-- The optional emission of one iteration of the correspondence loop. -/
def leafPair (cmp : SparseHistogram) (leaf : Word × List IndexT) : Option IndMatch :=
  match leaf.2, find cmp leaf.1 with
  | [i], some [j] => some ⟨i, j⟩
  | _, _ => none

/-- The events of building, weighting and querying the database (everything
up to line 323 that touches the tree or the database). -/
def Event.isDatabaseCall : Event → Bool
  | .loadTree _ => true
  | .loadWeights _ => true
  | .populateDatabase _ _ _ => true
  | .computeTfIdfWeights => true
  | .sanityCheck _ => true
  | .queryDatabase _ _ _ _ _ => true
  | _ => false

/-- The trace `tr2` continues `tr1` without any further database call. -/
def Continues (tr1 tr2 : List Event) : Prop :=
  ∃ post, tr2 = tr1 ++ post ∧ ∀ e ∈ post, Event.isDatabaseCall e = false

/-- The trace reached by a step of the reporting loop, however it ends. -/
def traceOf {α : Type} (get : α → List Event) : Except Run α → List Event
  | .ok a => get a
  | .error r => r.trace

/-- The database calls of a trace, in order. -/
def databaseCalls (tr : List Event) : List Event := tr.filter Event.isDatabaseCall

/-- The call that runs the queries (lines 311-323): the sanity check without
a query list, `queryDatabase` with one, each with the result count of lines
298-302. -/
def queryCall (o : Options) (env : Env) : Event :=
  match o.querylist with
  | none => .sanityCheck (if o.results = 0 then env.dbSize else o.results)
  | some queryList =>
    .queryDatabase queryList o.featuresFolder (if o.results = 0 then env.dbSize else o.results)
      o.distance o.Nmax

/-! ## Concrete collaborators for the examples -/

/-- A set of collaborators in which every library call succeeds, the
database holds two documents, and `sfm::Load` cannot read the empty path. -/
def demoEnv : Env where
  treeLoads := true
  weightsLoad := true
  numTotFeatures := 3
  dbHistograms := [(0, [(1, [0]), (2, [1, 2])]), (1, [(1, [0])])]
  dbSize := 2
  canOpen := fun _ => true
  sanityCheck := fun _ => [(0, [⟨0, 9⟩, ⟨1, 4⟩]), (1, [⟨0, 5⟩, ⟨1, 5⟩])]
  queryDatabase := fun _ _ _ _ _ =>
    some ([(0, [⟨1, 9⟩]), (1, [⟨0, 5⟩])], [(0, [(1, [0])]), (1, [(1, [3])])])
  sfmLoad := fun file _ => if file = "" then none else some [(0, "a.jpg"), (1, "b.jpg")]
  extension := fun _ => ".json"
  filename := fun p => p
  pathExists := fun _ => true
  pathAppend := fun a b => a ++ "/" ++ b
  createFilespec := fun d b e => d ++ "/" ++ b ++ "." ++ e
  initRegionType := fun _ => true
  stringToEnum := fun s => if s = "SIFT" then some .SIFT else some .OTHER
  loadRegionsPerView := fun _ _ _ => true
  scoreToString := fun _ => "1.000000"

/-- The options of a sanity-check run: only `--tree` and `--keylist` given. -/
def demoOptions : Options where
  weights := none
  tree := "voc.tree"
  keylist := "sfm.json"
  featuresFolder := ""
  querylist := none
  saveDocumentMap := none
  outdir := none
  describerMethod := "SIFT"
  results := 10
  matlab := false
  outfile := none
  Nmax := 0
  distance := "strongCommonPoints"

/-- The reporting context of a sanity-check run without output folder. -/
def sanityCtx : Ctx where
  env := demoEnv
  withOutput := false
  withOutDir := false
  withQuery := false
  matlabOutput := false
  outDir := ""
  sfmdata := []
  sfmdataQuery := []
  histograms := []

/-- Following the specification's words (self-retrieval sanity): the
first-ranked match of document `d` has an id different from `d`. -/
def specWrongMatch (d : DocId × DocMatches) : Bool :=
  match d.2.head? with
  | some best => decide (d.1 ≠ best.id)
  | none => false

/-! ## Reading back the document map -/

/-- The value of a decimal digit character. -/
def digitValue (c : Char) : Option Nat :=
  if c = '0' then some 0 else if c = '1' then some 1 else if c = '2' then some 2
  else if c = '3' then some 3 else if c = '4' then some 4 else if c = '5' then some 5
  else if c = '6' then some 6 else if c = '7' then some 7 else if c = '8' then some 8
  else if c = '9' then some 9 else none

/-- Reads the longest run of digits at the head of the input onto `acc`. -/
def readDigits : List Char → Nat → Nat × List Char
  | [], acc => (acc, [])
  | c :: cs, acc =>
    match digitValue c with
    | some d => readDigits cs (10 * acc + d)
    | none => (acc, c :: cs)

/-- Reads an unsigned decimal number (at least one digit). -/
def readNat (cs : List Char) : Option (Nat × List Char) :=
  match cs with
  | [] => none
  | c :: _ => if (digitValue c).isSome then some (readDigits cs 0) else none

/-- Consumes the literal `lit` at the head of the input. -/
def expect : List Char → List Char → Option (List Char)
  | [], cs => some cs
  | _ :: _, [] => none
  | l :: ls, c :: cs => if l = c then expect ls cs else none

/-- Reads `w, w, ... ]`: the word ids of one entry up to the closing bracket. -/
def readWords : Nat → List Char → Option (List Word × List Char)
  | 0, _ => none
  | fuel + 1, cs =>
    match expect "]".data cs with
    | some rest => some ([], rest)
    | none =>
      match readNat cs with
      | none => none
      | some (w, rest) =>
        match expect ", ".data rest with
        | none => none
        | some rest =>
          match readWords fuel rest with
          | none => none
          | some (ws, rest) => some (w :: ws, rest)

/-- Reads one entry `d{id} = [w, w, ]` and its end of line. -/
def readDocument (fuel : Nat) (cs : List Char) : Option ((DocId × List Word) × List Char) :=
  match expect "d\x7b".data cs with
  | none => none
  | some rest =>
    match readNat rest with
    | none => none
    | some (doc, rest) =>
      match expect "\x7d = [".data rest with
      | none => none
      | some rest =>
        match readWords fuel rest with
        | none => none
        | some (ws, rest) =>
          match expect "\n".data rest with
          | none => none
          | some rest => some ((doc, ws), rest)

/-- Reads entries until the input is used up. -/
def readDocuments (wordFuel : Nat) : Nat → List Char → Option (List (DocId × List Word))
  | 0, _ => none
  | _ + 1, [] => some []
  | fuel + 1, c :: cs =>
    match readDocument wordFuel (c :: cs) with
    | none => none
    | some (d, rest) =>
      match readDocuments wordFuel fuel rest with
      | none => none
      | some ds => some (d :: ds)

/-- Reads a document map back: for each entry, the document id and its
visual-word ids. -/
def readDocumentMap (text : String) : Option (List (DocId × List Word)) :=
  readDocuments (text.data.length + 1) (text.data.length + 1) text.data

/-- The characters one visual word contributes to its entry. -/
def wordChars (i : Word × List IndexT) : List Char :=
  decimal i.1 ++ ", ".data

/-- The characters one document contributes to the document map. -/
def documentChars (d : DocId × SparseHistogram) : List Char :=
  "d\x7b".data ++ decimal d.1 ++ "\x7d = [".data ++
    (d.2.map wordChars).flatten ++ "]\n".data

/-- The input does not go on with a digit. -/
def StopsNumber (rest : List Char) : Prop :=
  ∀ c r, rest = c :: r → digitValue c = none

/-! ## The partition invariant -/

/-- Following the specification's words (section 3, partition invariant): a
descriptor index appears under exactly one visual word of the document: two
bins that hold the same index are bins of the same word. -/
def PartitionInvariant (h : SparseHistogram) : Prop :=
  ∀ e1 ∈ h, ∀ e2 ∈ h, ∀ i ∈ e1.2, i ∈ e2.2 → e1.1 = e2.1

instance (h : SparseHistogram) : Decidable (PartitionInvariant h) := by
  unfold PartitionInvariant; infer_instance

/-! ## The database library, from the specification -/

/-- Modelled from the spec: the count returned by `populate` (section 4.3,
"returns total descriptor count ingested"); `populateDatabase` is not among
the sources. The descriptors of a document are the indices held by the bins
of its sparse histogram. -/
def specPopulateCount (documents : SparseHistogramPerImage) : Nat :=
  (documents.map (fun d => (d.2.map (fun bin => bin.2.length)).sum)).sum

/-- Modelled from the spec: the number of matches returned by `query(q, k)`
(section 8, top-k correctness: "exactly min(k, databaseSize) results",
"query(q, 0) returns all documents"); `Database::find` is not among the
sources. -/
def specResultCount (k databaseSize : Nat) : Nat :=
  if k = 0 then databaseSize else min k databaseSize

/-- Modelled from the spec: the collaborators `populateDatabase`,
`Database::size`, `Database::sanityCheck` and `queryDatabase`, none of them
among the sources, behave as sections 4.3 and 8 of the specification say: the
population returns the total descriptor count of the documents it inserted,
the size of the database is the number of its documents, and every match list
produced by the sanity check or by a query has `specResultCount` entries. -/
def SpecDatabase (env : Env) : Prop :=
  env.numTotFeatures = specPopulateCount env.dbHistograms ∧
  env.dbSize = env.dbHistograms.length ∧
  (∀ k, ∀ d ∈ env.sanityCheck k, d.2.length = specResultCount k env.dbSize) ∧
  (∀ queryList featuresFolder k distance Nmax allDocMatches histograms,
    env.queryDatabase queryList featuresFolder k distance Nmax =
      some (allDocMatches, histograms) →
    ∀ d ∈ allDocMatches, d.2.length = specResultCount k env.dbSize)

/-- The run did not end on a read outside a vector. -/
def Run.inBounds (r : Run) : Prop :=
  ∀ what, r.outcome ≠ .undefinedBehaviour what

/-- The ranking used by `specEnv`: the first `specResultCount k 2` entries of
a fixed order. -/
def specRanking (k : Nat) (ranked : DocMatches) : DocMatches :=
  ranked.take (specResultCount k 2)

/-- A set of collaborators that behaves as the specification says: two
documents with four descriptors in all, and match lists cut to the requested
count. -/
def specEnv : Env :=
  { demoEnv with
    numTotFeatures := 4
    dbHistograms := [(0, [(1, [0]), (2, [1, 2])]), (1, [(1, [0])])]
    dbSize := 2
    sanityCheck := fun k =>
      [(0, specRanking k [⟨0, 9⟩, ⟨1, 4⟩]), (1, specRanking k [⟨1, 8⟩, ⟨0, 4⟩])]
    queryDatabase := fun _ _ k _ _ =>
      some ([(0, specRanking k [⟨1, 9⟩, ⟨0, 2⟩]), (1, specRanking k [⟨0, 5⟩, ⟨1, 1⟩])],
        [(0, [(1, [0])]), (1, [(1, [3])])])
    sfmLoad := fun _ _ => some [(0, "a.jpg"), (1, "b.jpg")] }

/-- The collaborators of `specEnv`, except that the sanity check and the
queries return, for one document, exactly as many matches as the count they
are handed. -/
def countingEnv : Env :=
  { specEnv with
    sanityCheck := fun k => [(0, List.replicate k ⟨0, 1⟩)]
    queryDatabase := fun _ _ k _ _ => some ([(0, List.replicate k ⟨1, 1⟩)], []) }

theorem find_of_mem {β : Type} (m : List (Nat × β)) (hm : WellFormed m) (k : Nat) (v : β)
    (h : (k, v) ∈ m) : find m k = some v := by
  induction m with
  | nil => simp at h
  | cons e rest ih =>
    obtain ⟨k0, v0⟩ := e
    unfold WellFormed at hm
    simp only [List.map_cons, List.pairwise_cons] at hm
    rcases List.mem_cons.mp h with h | h
    · injection h with h1 h2
      subst h1; subst h2
      simp [find]
    · have hlt : k0 < k := hm.1 k (List.mem_map.mpr ⟨(k, v), h, rfl⟩)
      have hne : ¬ k0 = k := Nat.ne_of_lt hlt
      simp only [find, hne, if_false]
      exact ih hm.2 h

theorem find_eq_none_of_not_mem {β : Type} (m : List (Nat × β)) (k : Nat)
    (h : k ∉ m.map Prod.fst) : find m k = none := by
  induction m with
  | nil => rfl
  | cons e rest ih =>
    obtain ⟨k0, v0⟩ := e
    simp only [List.map_cons, List.mem_cons, not_or] at h
    have hne : ¬ k0 = k := fun he => h.1 he.symm
    simp only [find, hne, if_false]
    exact ih h.2

theorem mem_of_find {β : Type} (m : List (Nat × β)) (k : Nat) (v : β)
    (h : find m k = some v) : (k, v) ∈ m := by
  induction m with
  | nil => simp [find] at h
  | cons e rest ih =>
    obtain ⟨k0, v0⟩ := e
    by_cases hk : k0 = k
    · simp only [find, hk, if_true, Option.some.injEq] at h
      subst hk; subst h
      exact List.mem_cons_self _ _
    · simp only [find, hk, if_false] at h
      exact List.mem_cons_of_mem _ (ih h)

theorem leafStep_eq (cmp : SparseHistogram) (acc : IndMatches) (leaf : Word × List IndexT) :
    leafStep cmp acc leaf = acc ++ (leafPair cmp leaf).toList := by
  obtain ⟨w, l⟩ := leaf
  unfold leafStep leafPair
  rcases l with _ | ⟨i, _ | ⟨i2, l2⟩⟩
  · simp
  · simp only [List.length_singleton, if_true]
    cases hf : find cmp w with
    | none => simp
    | some r =>
      rcases r with _ | ⟨j, _ | ⟨j2, r2⟩⟩ <;> simp [List.getD]
  · simp

theorem foldl_leafStep (cmp : SparseHistogram) (l : SparseHistogram) (acc : IndMatches) :
    l.foldl (leafStep cmp) acc = acc ++ l.filterMap (leafPair cmp) := by
  induction l generalizing acc with
  | nil => simp
  | cons leaf rest ih =>
    rw [List.foldl_cons, ih, leafStep_eq]
    cases h : leafPair cmp leaf <;> simp [List.filterMap_cons, h]

theorem featureMatches_eq_filterMap (cur cmp : SparseHistogram) :
    featureMatches cur cmp = cur.filterMap (leafPair cmp) := by
  unfold featureMatches
  rw [foldl_leafStep]; simp

theorem leafPair_eq_specPair (cur cmp : SparseHistogram) (hcur : WellFormed cur)
    (leaf : Word × List IndexT) (h : leaf ∈ cur) :
    leafPair cmp leaf = specPair cur cmp leaf.1 := by
  obtain ⟨w, l⟩ := leaf
  have hf : find cur w = some l := find_of_mem cur hcur w l h
  unfold leafPair specPair
  simp only [hf]
  rcases l with _ | ⟨i, _ | ⟨i2, l2⟩⟩
  · rfl
  · cases find cmp w with
    | none => rfl
    | some r => rcases r with _ | ⟨j, _ | ⟨j2, r2⟩⟩ <;> rfl
  · rfl

theorem specPair_eq_none_of_not_mem (cur cmp : SparseHistogram) (w : Word)
    (h : w ∉ cur.map Prod.fst) : specPair cur cmp w = none := by
  unfold specPair
  rw [find_eq_none_of_not_mem cur w h]

theorem sorted_keys_eq_filter_range (ks : List Nat) (bound : Nat)
    (hs : ks.Pairwise (fun a b => a < b)) (hb : ∀ k ∈ ks, k < bound) :
    ks = (List.range bound).filter (fun w => decide (w ∈ ks)) := by
  have hs1 : ks.Sorted (fun a b => a < b) := hs
  have hs2 : ((List.range bound).filter (fun w => decide (w ∈ ks))).Sorted (fun a b => a < b) := by
    have : (List.range bound).Pairwise (fun a b => a < b) := List.pairwise_lt_range bound
    exact List.Pairwise.sublist (List.filter_sublist _) this
  apply List.eq_of_perm_of_sorted _ hs1 hs2
  apply (List.perm_ext_iff_of_nodup (hs.imp (fun h => Nat.ne_of_lt h))
    (hs2.imp (fun h => Nat.ne_of_lt h))).mpr
  intro a
  simp only [List.mem_filter, List.mem_range, decide_eq_true_eq]
  constructor
  · intro h; exact ⟨hb a h, h⟩
  · intro h; exact h.2

theorem filterMap_range_eq (ks : List Nat) (bound : Nat) (f : Nat → Option IndMatch)
    (hs : ks.Pairwise (fun a b => a < b)) (hb : ∀ k ∈ ks, k < bound)
    (hf : ∀ w, w ∉ ks → f w = none) :
    (List.range bound).filterMap f = ks.filterMap f := by
  conv_rhs => rw [sorted_keys_eq_filter_range ks bound hs hb]
  generalize List.range bound = r
  induction r with
  | nil => rfl
  | cons a r ih =>
    by_cases ha : a ∈ ks
    · simp only [List.filter_cons, ha, decide_True, if_true, List.filterMap_cons]
      rw [ih]
    · simp only [List.filter_cons, ha, decide_False, List.filterMap_cons, hf a ha]
      simpa using ih

theorem length_filterMap_eq_countP {α β : Type} (f : α → Option β) (l : List α) :
    (l.filterMap f).length = l.countP (fun a => (f a).isSome) := by
  induction l with
  | nil => rfl
  | cons a l ih =>
    cases h : f a <;> simp [List.filterMap_cons, List.countP_cons, h, ih]

theorem featureMatches_eq_spec (cur cmp : SparseHistogram) (bound : Nat)
    (hcur : WellFormed cur) (hb : ∀ leaf ∈ cur, leaf.1 < bound) :
    featureMatches cur cmp = specCorrespondences cur cmp bound := by
  rw [featureMatches_eq_filterMap]
  unfold specCorrespondences
  rw [filterMap_range_eq (cur.map Prod.fst) bound (specPair cur cmp) hcur
    (by
      intro k hk
      obtain ⟨leaf, hl, rfl⟩ := List.mem_map.mp hk
      exact hb leaf hl)
    (fun w hw => specPair_eq_none_of_not_mem cur cmp w hw)]
  rw [List.filterMap_map]
  apply List.filterMap_congr
  intro leaf hl
  exact leafPair_eq_specPair cur cmp hcur leaf hl

/-! ## Lemmas on traces -/

theorem Continues.refl (tr : List Event) : Continues tr tr :=
  ⟨[], by simp, by simp⟩

theorem Continues.trans {a b c : List Event} (h1 : Continues a b) (h2 : Continues b c) :
    Continues a c := by
  obtain ⟨p1, rfl, hp1⟩ := h1
  obtain ⟨p2, rfl, hp2⟩ := h2
  refine ⟨p1 ++ p2, by simp, ?_⟩
  intro e he
  rcases List.mem_append.mp he with h | h
  · exact hp1 e h
  · exact hp2 e h

theorem Continues.append (tr post : List Event)
    (h : ∀ e ∈ post, Event.isDatabaseCall e = false) : Continues tr (tr ++ post) :=
  ⟨post, rfl, h⟩

theorem correspondencePass_continues (c : Ctx) (doc : DocId) (cur : SparseHistogram)
    (ms : DocMatches) (tr : List Event) :
    Continues tr (traceOf id (correspondencePass c doc cur ms tr)) := by
  induction ms generalizing tr with
  | nil => exact Continues.refl tr
  | cons m rest ih =>
    unfold correspondencePass
    cases hf : find c.histograms m.id with
    | none => exact Continues.refl tr
    | some h =>
      simp only
      refine Continues.trans (Continues.append tr _ ?_) (ih _)
      intro e he
      simp only [List.mem_singleton] at he
      subst he; rfl

theorem outDirBlock_continues (c : Ctx) (doc : DocId) (ms : DocMatches) (tr : List Event) :
    Continues tr (traceOf Prod.fst (outDirBlock c doc ms tr)) := by
  unfold outDirBlock
  cases hq : find c.sfmdataQuery doc with
  | none =>
    simp only [traceOf]
    refine Continues.append tr _ ?_
    intro e he
    simp only [List.mem_singleton] at he
    subst he; rfl
  | some imagePath =>
    simp only
    have h1 : Continues tr (tr ++ [.createDirectories
        (c.env.pathAppend c.outDir (c.env.filename imagePath)),
        .createSymlink imagePath (c.env.pathAppend
          (c.env.pathAppend c.outDir (c.env.filename imagePath))
          (c.env.filename imagePath))]) := by
      refine Continues.append tr _ ?_
      intro e he
      simp only [List.mem_cons, List.mem_singleton, List.not_mem_nil, or_false] at he
      rcases he with he | he <;> subst he <;> rfl
    cases hh : find c.histograms doc with
    | none => exact h1
    | some cur =>
      simp only
      have h2 := correspondencePass_continues c doc cur ms (tr ++ [.createDirectories
        (c.env.pathAppend c.outDir (c.env.filename imagePath)),
        .createSymlink imagePath (c.env.pathAppend
          (c.env.pathAppend c.outDir (c.env.filename imagePath))
          (c.env.filename imagePath))])
      cases hc : correspondencePass c doc cur ms (tr ++ [.createDirectories
        (c.env.pathAppend c.outDir (c.env.filename imagePath)),
        .createSymlink imagePath (c.env.pathAppend
          (c.env.pathAppend c.outDir (c.env.filename imagePath))
          (c.env.filename imagePath))]) with
      | error r =>
        rw [hc] at h2
        exact Continues.trans h1 h2
      | ok tr2 =>
        rw [hc] at h2
        exact Continues.trans h1 h2

theorem matchLoop_continues (c : Ctx) (doc : DocId) (dirname : String) (j : Nat)
    (ms : DocMatches) (tr : List Event) :
    Continues tr (traceOf id (matchLoop c doc dirname j ms tr)) := by
  induction ms generalizing tr j with
  | nil => exact Continues.refl tr
  | cons m rest ih =>
    unfold matchLoop
    have h1 : Continues tr (if (c.withOutput && !c.matlabOutput) = true
        then tr ++ [Event.logMatch m] ++ [Event.fileMatch doc m]
        else tr ++ [Event.logMatch m]) := by
      split
      · rw [List.append_assoc]
        refine Continues.append tr _ ?_
        intro e he
        simp only [List.singleton_append, List.mem_cons, List.mem_singleton,
          List.not_mem_nil, or_false] at he
        rcases he with he | he <;> subst he <;> rfl
      · refine Continues.append tr _ ?_
        intro e he
        simp only [List.mem_singleton] at he
        subst he; rfl
    simp only
    split
    · cases hv : find c.sfmdata m.id with
      | none =>
        simp only [traceOf]
        refine Continues.trans h1 (Continues.append _ _ ?_)
        intro e he
        simp only [List.mem_singleton] at he
        subst he; rfl
      | some f =>
        simp only
        refine Continues.trans h1 (Continues.trans (Continues.append _ _ ?_) (ih _ _))
        intro e he
        simp only [List.mem_singleton] at he
        subst he; rfl
    · exact Continues.trans h1 (ih _ _)

theorem continues_one (tr : List Event) (e : Event) (h : Event.isDatabaseCall e = false) :
    Continues tr (tr ++ [e]) := by
  refine Continues.append tr _ ?_
  intro e2 he
  simp only [List.mem_singleton] at he
  subst he; exact h

theorem reportDocument_continues (c : Ctx) (s : LoopState) (d : DocId × DocMatches) :
    Continues s.trace (traceOf LoopState.trace (reportDocument c s d)) := by
  unfold reportDocument
  have h0 : Continues s.trace (s.trace ++ [Event.logCamera d.1]) := continues_one _ _ rfl
  cases hb : d.2.head? with
  | none => exact h0
  | some best =>
    simp only
    generalize htr1 : (if c.withOutput = true then
        if (!c.matlabOutput) = true then
          s.trace ++ [Event.logCamera d.1] ++ [Event.logBest d.1 d.2.length best] ++
            [Event.fileCamera d.1]
        else s.trace ++ [Event.logCamera d.1] ++ [Event.logBest d.1 d.2.length best] ++
            [Event.fileMatlab (d.1 + 1) d.2]
      else s.trace ++ [Event.logCamera d.1] ++ [Event.logBest d.1 d.2.length best]) = tr1
    have h1 : Continues s.trace tr1 := by
      have hbest : Continues s.trace
          (s.trace ++ [Event.logCamera d.1] ++ [Event.logBest d.1 d.2.length best]) :=
        Continues.trans h0 (continues_one _ _ rfl)
      rw [← htr1]
      split
      · split
        · exact Continues.trans hbest (continues_one _ _ rfl)
        · exact Continues.trans hbest (continues_one _ _ rfl)
      · exact hbest
    have h2 : Continues tr1 (traceOf Prod.fst
        (if c.withOutDir = true then outDirBlock c d.1 d.2 tr1 else Except.ok (tr1, ""))) := by
      split
      · exact outDirBlock_continues c d.1 d.2 tr1
      · exact Continues.refl tr1
    cases ho : (if c.withOutDir = true then outDirBlock c d.1 d.2 tr1
        else Except.ok (tr1, "")) with
    | error r =>
      rw [ho] at h2
      exact Continues.trans h1 h2
    | ok p =>
      obtain ⟨tr2, dirname⟩ := p
      rw [ho] at h2
      simp only
      have h3 := matchLoop_continues c d.1 dirname 0 d.2 tr2
      cases hm : matchLoop c d.1 dirname 0 d.2 tr2 with
      | error r =>
        rw [hm] at h3
        exact Continues.trans h1 (Continues.trans h2 h3)
      | ok tr3 =>
        rw [hm] at h3
        have h13 : Continues s.trace tr3 := Continues.trans h1 (Continues.trans h2 h3)
        simp only
        split
        · split
          · exact Continues.trans h13 (continues_one _ _ rfl)
          · exact h13
        · exact h13

theorem reportLoop_continues (c : Ctx) (ds : List (DocId × DocMatches)) (s : LoopState) :
    Continues s.trace (traceOf LoopState.trace (reportLoop c ds s)) := by
  induction ds generalizing s with
  | nil => exact Continues.refl _
  | cons d rest ih =>
    unfold reportLoop
    have h1 := reportDocument_continues c s d
    cases hd : reportDocument c s d with
    | error r =>
      rw [hd] at h1
      exact h1
    | ok s2 =>
      rw [hd] at h1
      exact Continues.trans h1 (ih s2)

theorem reportLoop_error_continues (c : Ctx) (ds : List (DocId × DocMatches)) (s : LoopState)
    (r : Run) (h : reportLoop c ds s = .error r) : Continues s.trace r.trace := by
  have h1 := reportLoop_continues c ds s
  rw [h] at h1
  exact h1

theorem reportLoop_ok_continues (c : Ctx) (ds : List (DocId × DocMatches)) (s s2 : LoopState)
    (h : reportLoop c ds s = .ok s2) : Continues s.trace s2.trace := by
  have h1 := reportLoop_continues c ds s
  rw [h] at h1
  exact h1

theorem finish_continues (c : Ctx) (s : LoopState) : Continues s.trace (finish c s).trace := by
  unfold finish
  cases c.withQuery <;> cases c.withOutput <;> by_cases hw : s.wrong = 0 <;>
    simp only [hw, Bool.not_false, Bool.not_true, if_true, if_false, ne_eq, not_true_eq_false,
      not_false_eq_true, Bool.false_eq_true] <;>
    first
      | exact Continues.refl _
      | exact continues_one _ _ rfl
      | exact Continues.trans (continues_one _ _ (by rfl)) (continues_one _ _ (by rfl))

theorem loadAndReport_continues (o : Options) (env : Env) (sfmdata sfmdataQuery : Views)
    (allDocMatches : List (DocId × DocMatches))
    (histograms : List (DocId × SparseHistogram)) (tr : List Event) :
    Continues tr (loadAndReport o env sfmdata sfmdataQuery allDocMatches histograms tr).trace := by
  unfold loadAndReport
  simp only
  have h1 : Continues tr (tr ++ [Event.sfmLoad (o.querylist.getD "") ESfMData.VIEWS_INTRINSICS]) :=
    continues_one _ _ rfl
  split
  · exact Continues.trans h1 (continues_one _ _ rfl)
  · have h2 := Continues.trans h1 (continues_one _
      (Event.initRegionType (env.createFilespec (matchDirOf (o.querylist.getD ""))
        "image_describer" "json")) rfl)
    split
    · exact Continues.trans h2 (continues_one _ _ rfl)
    · split
      · exact h2
      · split
        · exact Continues.trans h2 (continues_one _ _ rfl)
        · have h3 := Continues.trans h2 (continues_one _
            (Event.loadRegionsPerView (matchDirOf (o.querylist.getD ""))) rfl)
          split
          · exact Continues.trans h3 (continues_one _ _ rfl)
          · split
            · rename_i r heq
              exact Continues.trans h3 (reportLoop_error_continues _ _ _ _ heq)
            · rename_i s heq
              exact Continues.trans h3
                (Continues.trans (reportLoop_ok_continues _ _ _ _ heq) (finish_continues _ s))

theorem outDirSetup_continues (o : Options) (env : Env)
    (allDocMatches : List (DocId × DocMatches))
    (histograms : List (DocId × SparseHistogram)) (tr : List Event) :
    Continues tr (outDirSetup o env allDocMatches histograms tr).trace := by
  unfold outDirSetup
  split
  · simp only
    have h1 : Continues tr (tr ++ [Event.sfmLoad o.keylist ESfMData.VIEWS]) :=
      continues_one _ _ rfl
    have hmk : ∀ t : List Event, Continues t (t ++ (if (!env.pathExists (o.outdir.getD "")) = true
        then [Event.createDirectories (o.outdir.getD "")] else [])) := by
      intro t
      split
      · exact continues_one _ _ rfl
      · simpa using Continues.refl t
    split
    · exact Continues.trans h1 (continues_one _ _ rfl)
    · split
      · have h2 := Continues.trans h1 (continues_one _
          (Event.sfmLoad (o.querylist.getD "") ESfMData.VIEWS) rfl)
        split
        · exact Continues.trans h2 (continues_one _ _ rfl)
        · exact Continues.trans h2 (Continues.trans (hmk _) (loadAndReport_continues _ _ _ _ _ _ _))
      · exact Continues.trans h1 (Continues.trans (hmk _) (loadAndReport_continues _ _ _ _ _ _ _))
  · exact loadAndReport_continues _ _ _ _ _ _ _

theorem databaseCalls_of_continues (tr1 tr2 : List Event) (h : Continues tr1 tr2) :
    databaseCalls tr2 = databaseCalls tr1 := by
  obtain ⟨post, rfl, hpost⟩ := h
  unfold databaseCalls
  rw [List.filter_append]
  have : post.filter Event.isDatabaseCall = [] := by
    rw [List.filter_eq_nil_iff]
    intro e he
    simp [hpost e he]
  rw [this, List.append_nil]

theorem databaseCalls_append (tr1 tr2 : List Event) :
    databaseCalls (tr1 ++ tr2) = databaseCalls tr1 ++ databaseCalls tr2 := by
  unfold databaseCalls
  exact List.filter_append _ _

theorem queryStage_databaseCalls (o : Options) (env : Env) (tr : List Event) :
    databaseCalls (queryStage o env tr).trace = databaseCalls tr ++ [queryCall o env] := by
  unfold queryStage queryCall
  cases hq : o.querylist with
  | none =>
    simp only [Option.isSome_none, Bool.not_false, if_true]
    rw [databaseCalls_of_continues _ _ (outDirSetup_continues _ _ _ _ _)]
    rw [databaseCalls_append]
    cases o.outfile <;> simp [databaseCalls, Event.isDatabaseCall]
  | some q =>
    simp only [Option.isSome_some, Bool.not_true, Bool.false_eq_true, if_false,
      Option.getD_some]
    have hpre : databaseCalls ((if o.outfile.isSome = true
          then tr ++ [Event.openOutfile (o.outfile.getD "")] else tr) ++
        [Event.queryDatabase q o.featuresFolder (if o.results = 0 then env.dbSize else o.results)
          o.distance o.Nmax]) =
        databaseCalls tr ++ [Event.queryDatabase q o.featuresFolder
          (if o.results = 0 then env.dbSize else o.results) o.distance o.Nmax] := by
      rw [databaseCalls_append]
      cases o.outfile <;> simp [databaseCalls, Event.isDatabaseCall]
    split
    · exact hpre
    · rw [databaseCalls_of_continues _ _ (outDirSetup_continues _ _ _ _ _)]
      exact hpre

theorem main_databaseCalls (o : Options) (env : Env) :
    databaseCalls (main (.parsed o) env).trace =
      if env.treeLoads = false then [.loadTree o.tree]
      else if o.weights.isSome = true ∧ env.weightsLoad = false then
        [.loadTree o.tree, .loadWeights (o.weights.getD "")]
      else
        [.loadTree o.tree] ++
        (if o.weights.isSome = true then [.loadWeights (o.weights.getD "")] else []) ++
        [.populateDatabase o.keylist o.featuresFolder o.Nmax] ++
        (if env.numTotFeatures = 0 then []
         else (if o.weights.isSome = true then [] else [.computeTfIdfWeights]) ++
           [queryCall o env]) := by
  unfold main
  simp only
  unfold buildDatabase
  cases ht : env.treeLoads
  · simp [databaseCalls, Event.isDatabaseCall]
  · cases hw : o.weights with
    | none =>
      by_cases h0 : env.numTotFeatures = 0
      · simp [databaseCalls, Event.isDatabaseCall, h0]
      · simp only [Bool.not_true, Bool.false_eq_true, if_false, Option.isSome_none,
          Bool.false_and, h0, Bool.not_false, if_true, false_and]
        rw [queryStage_databaseCalls]
        cases o.saveDocumentMap <;> simp [databaseCalls, Event.isDatabaseCall]
    | some w =>
      cases hl : env.weightsLoad
      · simp [databaseCalls, Event.isDatabaseCall]
      · by_cases h0 : env.numTotFeatures = 0
        · simp [databaseCalls, Event.isDatabaseCall, h0]
        · simp only [Bool.not_true, Bool.false_eq_true, if_false, Option.isSome_some,
            Bool.and_false, h0, if_true, Option.getD_some, and_false]
          rw [queryStage_databaseCalls]
          cases o.saveDocumentMap <;> simp [databaseCalls, Event.isDatabaseCall]

theorem mem_databaseCalls_iff (tr : List Event) (e : Event)
    (he : Event.isDatabaseCall e = true) : e ∈ databaseCalls tr ↔ e ∈ tr := by
  unfold databaseCalls
  rw [List.mem_filter]
  exact ⟨fun h => h.1, fun h => ⟨h, he⟩⟩

theorem queryCall_ne_compute (o : Options) (env : Env) :
    Event.computeTfIdfWeights ≠ queryCall o env := by
  unfold queryCall
  cases o.querylist <;> simp

/-! ## Lemmas on the reporting loop -/

theorem matchLoop_append_missing (c : Ctx) (hout : c.withOutDir = true) (doc : DocId)
    (dirname : String) (j : Nat) (pre : DocMatches) (m : DocMatch) (rest : DocMatches)
    (tr tr1 : List Event) (hpre : matchLoop c doc dirname j pre tr = .ok tr1)
    (hm : find c.sfmdata m.id = none) :
    ∃ tr2, matchLoop c doc dirname j (pre ++ m :: rest) tr =
      .error ⟨tr2 ++ [.cerr ("Could not find the image file for the document "
        ++ toText m.id ++ "!")], .EXIT_FAILURE⟩ := by
  induction pre generalizing j tr with
  | nil =>
    simp only [List.nil_append, matchLoop, hout, if_true, hm]
    exact ⟨_, rfl⟩
  | cons p pre ih =>
    simp only [matchLoop, hout, if_true] at hpre
    simp only [List.cons_append, matchLoop, hout, if_true]
    cases hp : find c.sfmdata p.id with
    | none => simp [hp] at hpre
    | some f =>
      simp only [hp] at hpre
      simp only
      exact ih _ _ hpre

theorem matchLoop_ok (c : Ctx) (hout : c.withOutDir = false) (doc : DocId)
    (dirname : String) (j : Nat) (ms : DocMatches) (tr : List Event) :
    ∃ tr2, matchLoop c doc dirname j ms tr = .ok tr2 := by
  induction ms generalizing j tr with
  | nil => exact ⟨tr, rfl⟩
  | cons m ms ih =>
    simp only [matchLoop, hout, Bool.false_eq_true, if_false]
    exact ih _ _

theorem reportDocument_ok (c : Ctx) (hout : c.withOutDir = false) (s : LoopState)
    (d : DocId × DocMatches) (hne : d.2 ≠ []) :
    ∃ s2, reportDocument c s d = .ok s2 := by
  obtain ⟨doc, ms⟩ := d
  obtain ⟨best, hbest⟩ : ∃ best, ms.head? = some best := by
    cases ms with
    | nil => exact absurd rfl hne
    | cons b t => exact ⟨b, rfl⟩
  unfold reportDocument
  simp only [hbest, hout, Bool.false_eq_true, if_false]
  generalize (if c.withOutput = true then
    if (!c.matlabOutput) = true then
      s.trace ++ [Event.logCamera doc] ++ [Event.logBest doc ms.length best] ++
        [Event.fileCamera doc]
    else s.trace ++ [Event.logCamera doc] ++ [Event.logBest doc ms.length best] ++
        [Event.fileMatlab (doc + 1) ms]
  else s.trace ++ [Event.logCamera doc] ++ [Event.logBest doc ms.length best]) = tr1
  obtain ⟨tr2, h2⟩ := matchLoop_ok c hout doc "" 0 ms tr1
  rw [h2]
  simp only
  split
  · split
    · exact ⟨_, rfl⟩
    · exact ⟨_, rfl⟩
  · exact ⟨_, rfl⟩

theorem reportLoop_ok (c : Ctx) (hout : c.withOutDir = false)
    (ds : List (DocId × DocMatches)) (s : LoopState) (hne : ∀ d ∈ ds, d.2 ≠ []) :
    ∃ s2, reportLoop c ds s = .ok s2 := by
  induction ds generalizing s with
  | nil => exact ⟨s, rfl⟩
  | cons d ds ih =>
    obtain ⟨s1, h1⟩ := reportDocument_ok c hout s d (hne d (List.mem_cons_self _ _))
    simp only [reportLoop, h1]
    exact ih s1 (fun x hx => hne x (List.mem_cons_of_mem _ hx))

theorem reportDocument_wrong (c : Ctx) (s s2 : LoopState) (d : DocId × DocMatches)
    (h : reportDocument c s d = .ok s2) :
    s2.wrong = s.wrong + (if c.withQuery = false ∧ specWrongMatch d = true then 1 else 0) := by
  obtain ⟨doc, ms⟩ := d
  unfold reportDocument at h
  unfold specWrongMatch
  cases hb : ms.head? with
  | none => simp [hb] at h
  | some best =>
    simp only [hb] at h
    simp only
    generalize (if c.withOutput = true then
      if (!c.matlabOutput) = true then
        s.trace ++ [Event.logCamera doc] ++ [Event.logBest doc ms.length best] ++
          [Event.fileCamera doc]
      else s.trace ++ [Event.logCamera doc] ++ [Event.logBest doc ms.length best] ++
          [Event.fileMatlab (doc + 1) ms]
    else s.trace ++ [Event.logCamera doc] ++ [Event.logBest doc ms.length best]) = tr1 at h
    cases ho : (if c.withOutDir = true then outDirBlock c doc ms tr1
        else Except.ok (tr1, "")) with
    | error r => simp [ho] at h
    | ok p =>
      obtain ⟨tr2, dirname⟩ := p
      simp only [ho] at h
      cases hm : matchLoop c doc dirname 0 ms tr2 with
      | error r => simp [hm] at h
      | ok tr3 =>
        simp only [hm] at h
        cases hq : c.withQuery
        · by_cases hw : doc = best.id
          · simp [hq, hw] at h ⊢
            rw [← h]
          · simp [hq, hw] at h ⊢
            rw [← h]
        · simp [hq] at h ⊢
          rw [← h]

theorem reportLoop_wrong (c : Ctx) (ds : List (DocId × DocMatches)) (s s2 : LoopState)
    (h : reportLoop c ds s = .ok s2) :
    s2.wrong = s.wrong + (if c.withQuery = false then ds.countP specWrongMatch else 0) := by
  induction ds generalizing s with
  | nil =>
    simp only [reportLoop, Except.ok.injEq] at h
    subst h
    simp
  | cons d ds ih =>
    simp only [reportLoop] at h
    cases hd : reportDocument c s d with
    | error r => simp [hd] at h
    | ok s1 =>
      simp only [hd] at h
      rw [ih s1 h, reportDocument_wrong c s s1 d hd]
      cases hq : c.withQuery
      · by_cases hw : specWrongMatch d = true
        · simp [hw, List.countP_cons]
          omega
        · simp [hw, List.countP_cons]
      · simp

theorem reportDocument_ok_ne_nil (c : Ctx) (s s2 : LoopState) (d : DocId × DocMatches)
    (h : reportDocument c s d = .ok s2) : d.2 ≠ [] := by
  intro hnil
  unfold reportDocument at h
  simp [hnil] at h

theorem reportLoop_ok_ne_nil (c : Ctx) (ds : List (DocId × DocMatches)) (s s2 : LoopState)
    (h : reportLoop c ds s = .ok s2) : ∀ d ∈ ds, d.2 ≠ [] := by
  induction ds generalizing s with
  | nil => simp
  | cons d ds ih =>
    simp only [reportLoop] at h
    cases hd : reportDocument c s d with
    | error r => simp [hd] at h
    | ok s1 =>
      simp only [hd] at h
      intro x hx
      rcases List.mem_cons.mp hx with hx | hx
      · subst hx
        exact reportDocument_ok_ne_nil c s s1 x hd
      · exact ih s1 h x hx

/-! ## Lemmas on decimal rendering and reading -/

theorem decimalCore_acc (fuel n : Nat) (acc : List Char) :
    decimalCore fuel n acc = decimalCore fuel n [] ++ acc := by
  induction fuel generalizing n acc with
  | zero => simp [decimalCore]
  | succ f ih =>
    unfold decimalCore
    split
    · simp
    · rw [ih (n / 10) (digitChar (n % 10) :: acc), ih (n / 10) [digitChar (n % 10)]]
      simp

theorem decimalCore_fuel (f1 f2 n : Nat) (h1 : n < f1) (h2 : n < f2) (acc : List Char) :
    decimalCore f1 n acc = decimalCore f2 n acc := by
  induction f1 generalizing f2 n acc with
  | zero => omega
  | succ k ih =>
    cases f2 with
    | zero => omega
    | succ m =>
      unfold decimalCore
      split
      · rfl
      · apply ih
        · have := Nat.div_lt_self (n := n) (k := 10) (by omega) (by omega)
          omega
        · have := Nat.div_lt_self (n := n) (k := 10) (by omega) (by omega)
          omega

theorem decimal_small (n : Nat) (h : n < 10) : decimal n = [digitChar n] := by
  unfold decimal decimalCore
  simp [h]

theorem decimal_big (n : Nat) (h : 10 ≤ n) :
    decimal n = decimal (n / 10) ++ [digitChar (n % 10)] := by
  have hlt : n / 10 < n := Nat.div_lt_self (by omega) (by omega)
  unfold decimal
  rw [show decimalCore (n + 1) n [] =
      decimalCore n (n / 10) [digitChar (n % 10)] from by
    conv_lhs => unfold decimalCore
    simp [Nat.not_lt.mpr h]]
  rw [decimalCore_acc]
  rw [decimalCore_fuel n (n / 10 + 1) (n / 10) hlt (by omega)]

theorem digitValue_digitChar (d : Nat) (h : d < 10) : digitValue (digitChar d) = some d := by
  interval_cases d <;> rfl

theorem decimal_digits (n : Nat) : ∀ c ∈ decimal n, (digitValue c).isSome = true := by
  induction n using Nat.strong_induction_on with
  | _ n ih =>
    by_cases h : n < 10
    · rw [decimal_small n h]
      intro c hc
      simp only [List.mem_singleton] at hc
      subst hc
      rw [digitValue_digitChar n h]; rfl
    · rw [decimal_big n (by omega)]
      intro c hc
      rcases List.mem_append.mp hc with hc | hc
      · exact ih (n / 10) (Nat.div_lt_self (by omega) (by omega)) c hc
      · simp only [List.mem_singleton] at hc
        subst hc
        rw [digitValue_digitChar (n % 10) (Nat.mod_lt _ (by omega))]; rfl

theorem decimal_value (n : Nat) :
    (decimal n).foldl (fun a c => 10 * a + (digitValue c).getD 0) 0 = n := by
  induction n using Nat.strong_induction_on with
  | _ n ih =>
    by_cases h : n < 10
    · rw [decimal_small n h]
      simp [digitValue_digitChar n h]
    · rw [decimal_big n (by omega), List.foldl_append,
        ih (n / 10) (Nat.div_lt_self (by omega) (by omega))]
      simp only [List.foldl_cons, List.foldl_nil,
        digitValue_digitChar (n % 10) (Nat.mod_lt _ (by omega)), Option.getD_some]
      omega

theorem decimal_ne_nil (n : Nat) : decimal n ≠ [] := by
  by_cases h : n < 10
  · rw [decimal_small n h]; simp
  · rw [decimal_big n (by omega)]; simp

theorem readDigits_append (ds : List Char) (acc : Nat) (rest : List Char)
    (hds : ∀ c ∈ ds, (digitValue c).isSome = true) (hrest : StopsNumber rest) :
    readDigits (ds ++ rest) acc =
      (ds.foldl (fun a c => 10 * a + (digitValue c).getD 0) acc, rest) := by
  induction ds generalizing acc with
  | nil =>
    cases rest with
    | nil => rfl
    | cons c r =>
      simp only [List.nil_append, readDigits, hrest c r rfl, List.foldl_nil]
  | cons d ds ih =>
    have hd := hds d (List.mem_cons_self _ _)
    cases hv : digitValue d with
    | none => simp [hv] at hd
    | some v =>
      simp only [List.cons_append, readDigits, hv, List.foldl_cons, Option.getD_some]
      exact ih _ (fun c hc => hds c (List.mem_cons_of_mem _ hc))

theorem readNat_decimal (n : Nat) (rest : List Char) (hrest : StopsNumber rest) :
    readNat (decimal n ++ rest) = some (n, rest) := by
  have hne := decimal_ne_nil n
  have hdig := decimal_digits n
  have hread := readDigits_append (decimal n) 0 rest hdig hrest
  rw [decimal_value] at hread
  cases hd : decimal n with
  | nil => exact absurd hd hne
  | cons c cs =>
    rw [hd] at hread hdig
    simp only [List.cons_append, readNat, hdig c (List.mem_cons_self _ _), if_true]
    rw [← List.cons_append, hread]

theorem expect_append (lit rest : List Char) : expect lit (lit ++ rest) = some rest := by
  induction lit with
  | nil => cases rest <;> rfl
  | cons l ls ih => simp [expect, ih]

theorem expect_bracket_decimal (n : Nat) (rest : List Char) :
    expect "]".data (decimal n ++ rest) = none := by
  have hne := decimal_ne_nil n
  have hdig := decimal_digits n
  cases hd : decimal n with
  | nil => exact absurd hd hne
  | cons c cs =>
    rw [hd] at hdig
    have hc := hdig c (List.mem_cons_self _ _)
    have hne2 : ¬ ']' = c := by
      intro h
      subst h
      revert hc
      decide
    simp only [List.cons_append]
    show expect (']' :: []) (c :: (cs ++ rest)) = none
    simp [expect, hne2]

theorem stopsNumber_comma (rest : List Char) : StopsNumber (", ".data ++ rest) := by
  intro c r h
  have hc : c = ',' := by
    have h2 : (',' :: ' ' :: rest) = c :: r := h
    injection h2 with h3 _
    exact h3.symm
  subst hc
  decide

theorem stopsNumber_brace (rest : List Char) : StopsNumber ("\x7d = [".data ++ rest) := by
  intro c r h
  have hc : c = '}' := by
    have h2 : ('}' :: ' ' :: '=' :: ' ' :: '[' :: rest) = c :: r := h
    injection h2 with h3 _
    exact h3.symm
  subst hc
  decide

theorem readWords_chars (h : SparseHistogram) (fuel : Nat) (hfuel : h.length < fuel)
    (rest : List Char) :
    readWords fuel ((h.map wordChars).flatten ++ "]".data ++ rest) =
      some (h.map Prod.fst, rest) := by
  induction h generalizing fuel with
  | nil =>
    cases fuel with
    | zero => simp at hfuel
    | succ f =>
      simp only [List.map_nil, List.flatten_nil, List.nil_append, readWords]
      rw [expect_append]
  | cons i h ih =>
    cases fuel with
    | zero => simp at hfuel
    | succ f =>
      have hlen : h.length < f := by simpa using hfuel
      simp only [List.map_cons, List.flatten_cons, wordChars, List.append_assoc, readWords]
      rw [expect_bracket_decimal]
      simp only
      rw [readNat_decimal _ _ (stopsNumber_comma _)]
      simp only
      rw [expect_append]
      simp only
      have := ih f hlen
      simp only [wordChars, List.append_assoc] at this
      rw [this]

theorem readDocument_chars (d : DocId × SparseHistogram) (fuel : Nat)
    (hfuel : d.2.length < fuel) (rest : List Char) :
    readDocument fuel (documentChars d ++ rest) = some ((d.1, d.2.map Prod.fst), rest) := by
  unfold readDocument documentChars
  simp only [List.append_assoc]
  rw [expect_append]
  simp only
  rw [readNat_decimal _ _ (stopsNumber_brace _)]
  simp only
  rw [expect_append]
  simp only
  have hw := readWords_chars d.2 fuel hfuel ("\n".data ++ rest)
  have hsplit : ("]\n".data ++ rest) = "]".data ++ ("\n".data ++ rest) := rfl
  rw [hsplit]
  simp only [List.append_assoc] at hw
  rw [hw]
  simp only
  rw [expect_append]

theorem documentChars_ne_nil (d : DocId × SparseHistogram) (rest : List Char) :
    ∃ c cs, documentChars d ++ rest = c :: cs := by
  unfold documentChars
  exact ⟨'d', _, rfl⟩

theorem readDocuments_chars (ds : SparseHistogramPerImage) (wordFuel fuel : Nat)
    (hfuel : ds.length < fuel) (hword : ∀ d ∈ ds, d.2.length < wordFuel) :
    readDocuments wordFuel fuel (ds.map documentChars).flatten =
      some (ds.map (fun d => (d.1, d.2.map Prod.fst))) := by
  induction ds generalizing fuel with
  | nil =>
    cases fuel with
    | zero => simp at hfuel
    | succ f => rfl
  | cons d ds ih =>
    cases fuel with
    | zero => simp at hfuel
    | succ f =>
      have hlen : ds.length < f := by simpa using hfuel
      simp only [List.map_cons, List.flatten_cons]
      obtain ⟨c, cs, hc⟩ := documentChars_ne_nil d (ds.map documentChars).flatten
      have hdoc := readDocument_chars d wordFuel (hword d (List.mem_cons_self _ _))
        (ds.map documentChars).flatten
      rw [hc] at hdoc ⊢
      simp only [readDocuments, hdoc]
      rw [ih f hlen (fun x hx => hword x (List.mem_cons_of_mem _ hx))]

theorem foldl_words_data (h : SparseHistogram) (out : String) :
    (h.foldl (fun out i => out ++ toText i.1 ++ ", ") out).data =
      out.data ++ (h.map wordChars).flatten := by
  induction h generalizing out with
  | nil => simp
  | cons i h ih =>
    rw [List.foldl_cons, ih]
    simp [toText, wordChars, String.data_append]

theorem writeDocument_data (out : String) (d : DocId × SparseHistogram) :
    (writeDocument out d).data = out.data ++ documentChars d := by
  unfold writeDocument documentChars
  simp only [String.data_append]
  rw [foldl_words_data]
  simp only [String.data_append, toText, List.append_assoc]

theorem foldl_writeDocument_data (docs : SparseHistogramPerImage) (out : String) :
    (docs.foldl writeDocument out).data = out.data ++ (docs.map documentChars).flatten := by
  induction docs generalizing out with
  | nil => simp
  | cons d docs ih =>
    rw [List.foldl_cons, ih, writeDocument_data]
    simp

theorem documentChars_length (d : DocId × SparseHistogram) :
    d.2.length < (documentChars d).length := by
  unfold documentChars
  have hw : ∀ h : SparseHistogram, h.length ≤ ((h.map wordChars).flatten).length := by
    intro h
    induction h with
    | nil => simp
    | cons i h ih =>
      have hpos : 0 < (wordChars i).length := by
        unfold wordChars
        rw [List.length_append]
        have : (", ".data).length = 2 := rfl
        omega
      simp only [List.map_cons, List.flatten_cons, List.length_append, List.length_cons]
      omega
  have := hw d.2
  rw [List.length_append, List.length_append]
  have h1 : ("]\n".data).length = 2 := rfl
  omega

theorem documents_length (ds : SparseHistogramPerImage) :
    ds.length ≤ ((ds.map documentChars).flatten).length ∧
    ∀ d ∈ ds, d.2.length < ((ds.map documentChars).flatten).length + 1 := by
  induction ds with
  | nil => simp
  | cons d ds ih =>
    have hd := documentChars_length d
    simp only [List.map_cons, List.flatten_cons, List.length_append, List.length_cons]
    refine ⟨by omega, ?_⟩
    intro x hx
    rcases List.mem_cons.mp hx with h | h
    · subst h; omega
    · have := ih.2 x h
      omega

theorem readDocumentMap_save (docs : SparseHistogramPerImage) :
    readDocumentMap (saveSparseHistogramPerImage true docs).2 =
      some (docs.map (fun d => (d.1, d.2.map Prod.fst))) := by
  unfold readDocumentMap saveSparseHistogramPerImage
  simp only [Bool.not_true, Bool.false_eq_true, if_false]
  rw [foldl_writeDocument_data]
  have hl := documents_length docs
  simp only [show ("" : String).data = [] from rfl, List.nil_append]
  exact readDocuments_chars docs _ _ (by omega) hl.2

theorem documentChars_words (d : DocId × SparseHistogram) :
    documentChars d = documentChars (d.1, (d.2.map Prod.fst).map (fun w => (w, []))) := by
  unfold documentChars
  simp only [List.map_map]
  rfl

theorem save_data (docs : SparseHistogramPerImage) :
    (saveSparseHistogramPerImage true docs).2.data = (docs.map documentChars).flatten := by
  unfold saveSparseHistogramPerImage
  simp only [Bool.not_true, Bool.false_eq_true, if_false]
  rw [foldl_writeDocument_data]
  rfl

/-! ## Lemmas on emitted pairs -/

theorem leafPair_some (cmp : SparseHistogram) (leaf : Word × List IndexT) (m : IndMatch)
    (h : leafPair cmp leaf = some m) :
    leaf.2 = [m.i] ∧ find cmp leaf.1 = some [m.j] := by
  obtain ⟨w, l⟩ := leaf
  unfold leafPair at h
  rcases l with _ | ⟨i, _ | ⟨i2, l2⟩⟩
  · simp at h
  · cases hf : find cmp w with
    | none => simp [hf] at h
    | some r =>
      rcases r with _ | ⟨j, _ | ⟨j2, r2⟩⟩
      · simp [hf] at h
      · simp only [hf, Option.some.injEq] at h
        subst h
        exact ⟨rfl, rfl⟩
      · simp [hf] at h
  · simp at h

/-! ## Lemmas on myToString -/

theorem decimal_length_le (k n : Nat) (hk : 0 < k) (hn : n < 10 ^ k) :
    (decimal n).length ≤ k := by
  induction k generalizing n with
  | zero => omega
  | succ k ih =>
    by_cases h : n < 10
    · rw [decimal_small n h]
      simp
    · rw [decimal_big n (by omega), List.length_append, List.length_singleton]
      have hk0 : 0 < k := by
        rcases Nat.eq_zero_or_pos k with h0 | h0
        · subst h0
          simp at hn
          omega
        · exact h0
      have hdiv : n / 10 < 10 ^ k := by
        rw [Nat.div_lt_iff_lt_mul (by omega)]
        rw [Nat.pow_succ] at hn
        exact hn
      have := ih (n / 10) hk0 hdiv
      omega

theorem myToString_length (i zeroPadding : Nat) :
    (myToString i zeroPadding).length = max zeroPadding (decimal i).length := by
  show (List.replicate (zeroPadding - (decimal i).length) '0' ++ decimal i).length = _
  rw [List.length_append, List.length_replicate]
  omega

theorem foldl_zeros (k : Nat) :
    (List.replicate k '0').foldl (fun a c => 10 * a + (digitValue c).getD 0) 0 = 0 := by
  induction k with
  | zero => rfl
  | succ k ih =>
    rw [List.replicate_succ, List.foldl_cons]
    exact ih

theorem readNat_digits (ds : List Char) (hne : ds ≠ [])
    (hds : ∀ c ∈ ds, (digitValue c).isSome = true) (rest : List Char)
    (hrest : StopsNumber rest) :
    readNat (ds ++ rest) =
      some (ds.foldl (fun a c => 10 * a + (digitValue c).getD 0) 0, rest) := by
  have hread := readDigits_append ds 0 rest hds hrest
  cases hd : ds with
  | nil => exact absurd hd hne
  | cons c cs =>
    rw [hd] at hread hds
    simp only [List.cons_append, readNat, hds c (List.mem_cons_self _ _), if_true]
    rw [← List.cons_append, hread]

theorem myToString_read (i zeroPadding : Nat) :
    readNat (myToString i zeroPadding).data = some (i, []) := by
  show readNat (List.replicate (zeroPadding - (decimal i).length) '0' ++ decimal i) = _
  have hne : List.replicate (zeroPadding - (decimal i).length) '0' ++ decimal i ≠ [] := by
    intro h
    exact decimal_ne_nil i (List.append_eq_nil.mp h).2
  have hds : ∀ c ∈ List.replicate (zeroPadding - (decimal i).length) '0' ++ decimal i,
      (digitValue c).isSome = true := by
    intro c hc
    rcases List.mem_append.mp hc with h | h
    · rw [(List.mem_replicate.mp h).2]
      rfl
    · exact decimal_digits i c h
  have hstop : StopsNumber [] := by
    intro c r h
    cases h
  have h := readNat_digits _ hne hds [] hstop
  rw [List.append_nil] at h
  rw [h, List.foldl_append, foldl_zeros]
  have hv := decimal_value i
  rw [hv]

/-! ## Lemmas on reads in bounds -/

theorem correspondencePass_inBounds (c : Ctx) (doc : DocId) (cur : SparseHistogram)
    (ms : DocMatches) (tr : List Event) (r : Run)
    (h : correspondencePass c doc cur ms tr = .error r) : r.inBounds := by
  induction ms generalizing tr with
  | nil => simp [correspondencePass] at h
  | cons m rest ih =>
    unfold correspondencePass at h
    cases hf : find c.histograms m.id with
    | none =>
      simp only [hf, Except.error.injEq] at h
      subst h
      intro what hw
      simp at hw
    | some hg =>
      simp only [hf] at h
      exact ih _ h

theorem outDirBlock_inBounds (c : Ctx) (doc : DocId) (ms : DocMatches) (tr : List Event)
    (r : Run) (h : outDirBlock c doc ms tr = .error r) : r.inBounds := by
  unfold outDirBlock at h
  cases hq : find c.sfmdataQuery doc with
  | none =>
    simp only [hq, Except.error.injEq] at h
    subst h
    intro what hw
    simp at hw
  | some imagePath =>
    simp only [hq] at h
    cases hh : find c.histograms doc with
    | none =>
      simp only [hh, Except.error.injEq] at h
      subst h
      intro what hw
      simp at hw
    | some cur =>
      simp only [hh] at h
      split at h
      · rename_i r2 heq
        simp only [Except.error.injEq] at h
        subst h
        exact correspondencePass_inBounds _ _ _ _ _ _ heq
      · simp at h

theorem matchLoop_inBounds (c : Ctx) (doc : DocId) (dirname : String) (j : Nat)
    (ms : DocMatches) (tr : List Event) (r : Run)
    (h : matchLoop c doc dirname j ms tr = .error r) : r.inBounds := by
  induction ms generalizing j tr with
  | nil => simp [matchLoop] at h
  | cons m rest ih =>
    unfold matchLoop at h
    simp only at h
    split at h
    · cases hv : find c.sfmdata m.id with
      | none =>
        simp only [hv, Except.error.injEq] at h
        subst h
        intro what hw
        simp at hw
      | some f =>
        simp only [hv] at h
        exact ih _ _ h
    · exact ih _ _ h

theorem reportDocument_inBounds (c : Ctx) (s : LoopState) (d : DocId × DocMatches)
    (hne : d.2 ≠ []) (r : Run) (h : reportDocument c s d = .error r) : r.inBounds := by
  obtain ⟨doc, ms⟩ := d
  obtain ⟨best, hbest⟩ : ∃ best, ms.head? = some best := by
    cases ms with
    | nil => exact absurd rfl hne
    | cons b t => exact ⟨b, rfl⟩
  unfold reportDocument at h
  simp only [hbest] at h
  split at h
  · rename_i r2 heq
    simp only [Except.error.injEq] at h
    subst h
    split at heq
    · exact outDirBlock_inBounds _ _ _ _ _ heq
    · simp at heq
  · split at h
    · rename_i r2 heq
      simp only [Except.error.injEq] at h
      subst h
      exact matchLoop_inBounds _ _ _ _ _ _ _ heq
    · split at h
      · split at h <;> simp at h
      · simp at h

theorem reportLoop_inBounds (c : Ctx) (ds : List (DocId × DocMatches)) (s : LoopState)
    (hne : ∀ d ∈ ds, d.2 ≠ []) (r : Run) (h : reportLoop c ds s = .error r) :
    r.inBounds := by
  induction ds generalizing s with
  | nil => simp [reportLoop] at h
  | cons d ds ih =>
    simp only [reportLoop] at h
    cases hd : reportDocument c s d with
    | error r2 =>
      simp only [hd, Except.error.injEq] at h
      subst h
      exact reportDocument_inBounds c s d (hne d (List.mem_cons_self _ _)) _ hd
    | ok s1 =>
      simp only [hd] at h
      exact ih s1 (fun x hx => hne x (List.mem_cons_of_mem _ hx)) h

theorem finish_inBounds (c : Ctx) (s : LoopState) : (finish c s).inBounds := by
  intro what hw
  simp [finish] at hw

theorem loadAndReport_inBounds (o : Options) (env : Env) (sfmdata sfmdataQuery : Views)
    (allDocMatches : List (DocId × DocMatches))
    (histograms : List (DocId × SparseHistogram)) (tr : List Event)
    (hne : ∀ d ∈ allDocMatches, d.2 ≠ []) :
    (loadAndReport o env sfmdata sfmdataQuery allDocMatches histograms tr).inBounds := by
  unfold loadAndReport
  simp only
  split
  · intro what hw; simp at hw
  · split
    · intro what hw; simp at hw
    · split
      · intro what hw; simp at hw
      · split
        · intro what hw; simp at hw
        · split
          · intro what hw; simp at hw
          · split
            · rename_i r heq
              exact reportLoop_inBounds _ _ _ hne r heq
            · exact finish_inBounds _ _

theorem outDirSetup_inBounds (o : Options) (env : Env)
    (allDocMatches : List (DocId × DocMatches))
    (histograms : List (DocId × SparseHistogram)) (tr : List Event)
    (hne : ∀ d ∈ allDocMatches, d.2 ≠ []) :
    (outDirSetup o env allDocMatches histograms tr).inBounds := by
  unfold outDirSetup
  split
  · simp only
    split
    · intro what hw; simp at hw
    · split
      · split
        · intro what hw; simp at hw
        · exact loadAndReport_inBounds _ _ _ _ _ _ _ hne
      · exact loadAndReport_inBounds _ _ _ _ _ _ _ hne
  · exact loadAndReport_inBounds _ _ _ _ _ _ _ hne

theorem queryStage_inBounds (o : Options) (env : Env) (tr : List Event)
    (hsanity : ∀ d ∈ env.sanityCheck (if o.results = 0 then env.dbSize else o.results),
      d.2 ≠ [])
    (hquery : ∀ q allDocMatches histograms,
      env.queryDatabase q o.featuresFolder (if o.results = 0 then env.dbSize else o.results)
        o.distance o.Nmax = some (allDocMatches, histograms) →
      ∀ d ∈ allDocMatches, d.2 ≠ []) :
    (queryStage o env tr).inBounds := by
  unfold queryStage
  simp only
  split
  · exact outDirSetup_inBounds _ _ _ _ _ hsanity
  · split
    · intro what hw; simp at hw
    · rename_i allDocMatches histograms heq
      exact outDirSetup_inBounds _ _ _ _ _ (hquery _ allDocMatches histograms heq)

theorem specPopulateCount_pos (documents : SparseHistogramPerImage)
    (h : specPopulateCount documents ≠ 0) : 0 < documents.length := by
  cases documents with
  | nil => simp [specPopulateCount] at h
  | cons d ds => simp

theorem specResultCount_pos (k databaseSize : Nat) (hdb : 0 < databaseSize) :
    0 < specResultCount (if k = 0 then databaseSize else k) databaseSize := by
  unfold specResultCount
  by_cases h0 : k = 0
  · simp only [h0, if_true]
    split <;> omega
  · simp only [h0, if_false]
    omega

theorem specDatabase_count_pos (o : Options) (env : Env) (hspec : SpecDatabase env)
    (hpop : env.numTotFeatures ≠ 0) :
    0 < specResultCount (if o.results = 0 then env.dbSize else o.results) env.dbSize := by
  obtain ⟨hcount, hsize, _, _⟩ := hspec
  have hdb : 0 < env.dbSize := by
    rw [hsize]
    exact specPopulateCount_pos _ (by rw [← hcount]; exact hpop)
  exact specResultCount_pos o.results env.dbSize hdb

theorem specRanking_length (k : Nat) (a b : DocMatch) :
    (specRanking k [a, b]).length = specResultCount k 2 := by
  unfold specRanking specResultCount
  rw [List.length_take]
  simp only [List.length_cons, List.length_nil]
  split <;> omega

theorem specEnv_conforms : SpecDatabase specEnv := by
  refine ⟨by decide, rfl, ?_, ?_⟩
  · intro k d hd
    simp only [specEnv, List.mem_cons, List.mem_singleton, List.not_mem_nil, or_false] at hd
    rcases hd with rfl | rfl <;> exact specRanking_length k _ _
  · intro queryList featuresFolder k distance Nmax allDocMatches histograms h d hd
    simp only [specEnv, Option.some.injEq, Prod.mk.injEq] at h
    obtain ⟨h1, _⟩ := h
    subst h1
    simp only [List.mem_cons, List.mem_singleton, List.not_mem_nil, or_false] at hd
    rcases hd with rfl | rfl <;> exact specRanking_length k _ _

theorem best_match_read_unguarded :
    (main (.parsed demoOptions)
      { specEnv with sanityCheck := fun _ => [(0, [])] }).outcome =
      .undefinedBehaviour "matches[0]" := by
  decide

/-! ## Lemmas on the query stage -/

theorem main_reaches_queryStage (o : Options) (env : Env) (ht : env.treeLoads = true)
    (hl : o.weights.isSome = true → env.weightsLoad = true)
    (hn : env.numTotFeatures ≠ 0) :
    ∃ tr, main (.parsed o) env = queryStage o env tr := by
  unfold main
  simp only
  unfold buildDatabase
  cases hw : o.weights with
  | none =>
    simp only [ht, hn, Bool.not_true, Bool.false_eq_true, if_false, Option.isSome_none,
      Bool.false_and]
    exact ⟨_, rfl⟩
  | some w =>
    have hl2 : env.weightsLoad = true := hl (by simp [hw])
    simp only [ht, hn, hl2, Bool.not_true, Bool.false_eq_true, if_false, Option.isSome_some,
      Bool.and_false]
    exact ⟨_, rfl⟩

theorem queryStage_sanityCheck (o : Options) (env : Env) (tr : List Event)
    (hq : o.querylist = none) :
    ∃ tr2, queryStage o env tr =
      outDirSetup o env (env.sanityCheck (if o.results = 0 then env.dbSize else o.results)) []
        (tr2 ++ [Event.sanityCheck (if o.results = 0 then env.dbSize else o.results)]) := by
  unfold queryStage
  simp only [hq, Option.isSome_none, Bool.not_false, if_true]
  exact ⟨_, rfl⟩

theorem queryStage_queryDatabase (o : Options) (env : Env) (tr : List Event) (q : String)
    (hq : o.querylist = some q) :
    ∃ tr2, queryStage o env tr =
      match env.queryDatabase q o.featuresFolder
          (if o.results = 0 then env.dbSize else o.results) o.distance o.Nmax with
      | none =>
        ⟨tr2 ++ [Event.queryDatabase q o.featuresFolder
          (if o.results = 0 then env.dbSize else o.results) o.distance o.Nmax],
          .uncaughtException "queryDatabase"⟩
      | some (allDocMatches, histograms) =>
        outDirSetup o env allDocMatches histograms
          (tr2 ++ [Event.queryDatabase q o.featuresFolder
            (if o.results = 0 then env.dbSize else o.results) o.distance o.Nmax]) := by
  unfold queryStage
  simp only [hq, Option.isSome_some, Bool.not_true, Bool.false_eq_true, if_false,
    Option.getD_some]
  exact ⟨_, rfl⟩

/-! ## Lemmas on failed view lookups -/

/-- C1 (correspondence soundness). For a current histogram that is a
well-formed map, every `IndMatch (i, j)` pushed by the correspondence loop
comes from a visual word `w` that the current histogram maps to exactly `[i]`
and the compared histogram maps to exactly `[j]`; and an iteration on a leaf
with two or more descriptor indices, or whose word is absent from the compared
histogram, or whose word has two or more indices there, pushes nothing. -/
theorem correspondence_soundness (cur cmp : SparseHistogram) (hcur : WellFormed cur) :
    (∀ m ∈ featureMatches cur cmp,
        ∃ w, find cur w = some [m.i] ∧ find cmp w = some [m.j]) ∧
    (∀ (acc : IndMatches) (leaf : Word × List IndexT),
        (2 ≤ leaf.2.length ∨ find cmp leaf.1 = none ∨
          ∃ l, find cmp leaf.1 = some l ∧ 2 ≤ l.length) →
        leafStep cmp acc leaf = acc) := by
  constructor
  · intro m hm
    rw [featureMatches_eq_filterMap] at hm
    obtain ⟨leaf, hleaf, hpair⟩ := List.mem_filterMap.mp hm
    obtain ⟨w, l⟩ := leaf
    refine ⟨w, ?_⟩
    unfold leafPair at hpair
    rcases l with _ | ⟨i, _ | ⟨i2, l2⟩⟩
    · simp at hpair
    · cases hf : find cmp w with
      | none => simp [hf] at hpair
      | some r =>
        rcases r with _ | ⟨j, _ | ⟨j2, r2⟩⟩
        · simp [hf] at hpair
        · simp only [hf, Option.some.injEq] at hpair
          subst hpair
          exact ⟨find_of_mem cur hcur w [i] hleaf, rfl⟩
        · simp [hf] at hpair
    · simp at hpair
  · intro acc leaf h
    rw [leafStep_eq]
    obtain ⟨w, l⟩ := leaf
    have hnone : leafPair cmp (w, l) = none := by
      unfold leafPair
      rcases h with h | h | ⟨r, hr, h⟩
      · rcases l with _ | ⟨i, _ | ⟨i2, l2⟩⟩
        · rfl
        · simp at h
        · rfl
      · simp only at h
        rw [h]
        rcases l with _ | ⟨i, _ | ⟨i2, l2⟩⟩ <;> rfl
      · simp only at hr
        rw [hr]
        rcases r with _ | ⟨j, _ | ⟨j2, r2⟩⟩
        · simp at h
        · simp at h
        · rcases l with _ | ⟨i, _ | ⟨i2, l2⟩⟩ <;> rfl
    rw [hnone]; simp

/-- Witness of C1 on the histograms `{0:[4], 1:[5,6], 2:[7], 3:[8]}` and
`{0:[9], 1:[1], 2:[2,3]}`. -/
theorem correspondence_soundness_witness :
    WellFormed ([(0, [4]), (1, [5, 6]), (2, [7]), (3, [8])] : SparseHistogram) ∧
    ((∀ m ∈ featureMatches [(0, [4]), (1, [5, 6]), (2, [7]), (3, [8])]
          [(0, [9]), (1, [1]), (2, [2, 3])],
        ∃ w, find ([(0, [4]), (1, [5, 6]), (2, [7]), (3, [8])] : SparseHistogram) w = some [m.i] ∧
          find ([(0, [9]), (1, [1]), (2, [2, 3])] : SparseHistogram) w = some [m.j]) ∧
    (∀ (acc : IndMatches) (leaf : Word × List IndexT),
        (2 ≤ leaf.2.length ∨ find ([(0, [9]), (1, [1]), (2, [2, 3])] : SparseHistogram) leaf.1 = none ∨
          ∃ l, find ([(0, [9]), (1, [1]), (2, [2, 3])] : SparseHistogram) leaf.1 = some l ∧
            2 ≤ l.length) →
        leafStep [(0, [9]), (1, [1]), (2, [2, 3])] acc leaf = acc)) :=
  ⟨by decide, correspondence_soundness _ _ (by decide)⟩

/-- C2 (correspondence completeness). For a current histogram that is a
well-formed map with all words below `bound`: an iteration on a word that has
exactly one index `i` on the left and exactly one index `j` on the right pushes
exactly the match `(i, j)`; the emitted list is the list of such pairs in
ascending visual-word order; and its length is the number of words that are
singleton in both histograms. -/
theorem correspondence_completeness (cur cmp : SparseHistogram) (bound : Nat)
    (hcur : WellFormed cur) (hb : ∀ leaf ∈ cur, leaf.1 < bound) :
    (∀ (acc : IndMatches) (w : Word) (i j : IndexT), find cmp w = some [j] →
        leafStep cmp acc (w, [i]) = acc ++ [⟨i, j⟩]) ∧
    featureMatches cur cmp = specCorrespondences cur cmp bound ∧
    (featureMatches cur cmp).length =
      (List.range bound).countP (singletonInBoth cur cmp) := by
  refine ⟨?_, featureMatches_eq_spec cur cmp bound hcur hb, ?_⟩
  · intro acc w i j hj
    rw [leafStep_eq]
    simp [leafPair, hj]
  · rw [featureMatches_eq_spec cur cmp bound hcur hb]
    unfold specCorrespondences singletonInBoth
    exact length_filterMap_eq_countP _ _

/-- Witness of C2 on the histograms `{0:[4], 1:[5,6], 2:[7], 3:[8]}` and
`{0:[9], 1:[1], 2:[2,3]}` with words below 4. -/
theorem correspondence_completeness_witness :
    (WellFormed ([(0, [4]), (1, [5, 6]), (2, [7]), (3, [8])] : SparseHistogram) ∧
      ∀ leaf ∈ ([(0, [4]), (1, [5, 6]), (2, [7]), (3, [8])] : SparseHistogram), leaf.1 < 4) ∧
    ((∀ (acc : IndMatches) (w : Word) (i j : IndexT),
        find ([(0, [9]), (1, [1]), (2, [2, 3])] : SparseHistogram) w = some [j] →
        leafStep [(0, [9]), (1, [1]), (2, [2, 3])] acc (w, [i]) = acc ++ [⟨i, j⟩]) ∧
    featureMatches [(0, [4]), (1, [5, 6]), (2, [7]), (3, [8])] [(0, [9]), (1, [1]), (2, [2, 3])] =
      specCorrespondences [(0, [4]), (1, [5, 6]), (2, [7]), (3, [8])]
        [(0, [9]), (1, [1]), (2, [2, 3])] 4 ∧
    (featureMatches [(0, [4]), (1, [5, 6]), (2, [7]), (3, [8])]
        [(0, [9]), (1, [1]), (2, [2, 3])]).length =
      (List.range 4).countP (singletonInBoth [(0, [4]), (1, [5, 6]), (2, [7]), (3, [8])]
        [(0, [9]), (1, [1]), (2, [2, 3])])) :=
  ⟨⟨by decide, by decide⟩, correspondence_completeness _ _ 4 (by decide) (by decide)⟩

/-! ## C3, C4, C5: population, weights, result count -/

/-- C3 (empty population is fatal). When `populateDatabase` reports zero
descriptors, a run that reached the population ends with `EXIT_FAILURE`, and
no run invokes `computeTfIdfWeights`, `sanityCheck` or `queryDatabase`; with
options parsed, the tree loaded and the weights file (if any) loaded, the
population is reached. -/
theorem empty_population_fatal (cl : CommandLine) (env : Env)
    (h0 : env.numTotFeatures = 0) :
    ((∃ k f n, Event.populateDatabase k f n ∈ (main cl env).trace) →
        (main cl env).outcome = .EXIT_FAILURE) ∧
    Event.computeTfIdfWeights ∉ (main cl env).trace ∧
    (∀ k, Event.sanityCheck k ∉ (main cl env).trace) ∧
    (∀ q f k d n, Event.queryDatabase q f k d n ∉ (main cl env).trace) ∧
    (∀ o, cl = .parsed o → env.treeLoads = true →
        (o.weights.isSome = true → env.weightsLoad = true) →
        Event.populateDatabase o.keylist o.featuresFolder o.Nmax ∈ (main cl env).trace) := by
  cases cl with
  | help => simp [main]
  | requiredOption => simp [main]
  | error => simp [main]
  | parsed o =>
    unfold main
    simp only
    unfold buildDatabase
    cases ht : env.treeLoads
    · simp
    · cases hw : o.weights with
      | none => simp [h0]
      | some w =>
        cases hl : env.weightsLoad
        · simp [hw]
        · simp [h0]

/-- Witness of C3: the sanity-check options with a population that ingests
nothing. -/
theorem empty_population_fatal_witness :
    ({ demoEnv with numTotFeatures := 0 } : Env).numTotFeatures = 0 ∧
    (((∃ k f n, Event.populateDatabase k f n ∈
          (main (.parsed demoOptions) { demoEnv with numTotFeatures := 0 }).trace) →
        (main (.parsed demoOptions) { demoEnv with numTotFeatures := 0 }).outcome
          = .EXIT_FAILURE) ∧
    Event.computeTfIdfWeights ∉
      (main (.parsed demoOptions) { demoEnv with numTotFeatures := 0 }).trace ∧
    (∀ k, Event.sanityCheck k ∉
      (main (.parsed demoOptions) { demoEnv with numTotFeatures := 0 }).trace) ∧
    (∀ q f k d n, Event.queryDatabase q f k d n ∉
      (main (.parsed demoOptions) { demoEnv with numTotFeatures := 0 }).trace) ∧
    (∀ o, CommandLine.parsed demoOptions = .parsed o →
        ({ demoEnv with numTotFeatures := 0 } : Env).treeLoads = true →
        (o.weights.isSome = true →
          ({ demoEnv with numTotFeatures := 0 } : Env).weightsLoad = true) →
        Event.populateDatabase o.keylist o.featuresFolder o.Nmax ∈
          (main (.parsed demoOptions) { demoEnv with numTotFeatures := 0 }).trace)) :=
  ⟨rfl, empty_population_fatal _ _ rfl⟩

/-- C4, the claim as stated fails: in the run with no weights file whose
population ingests nothing, `computeTfIdfWeights` is not invoked although no
weights file was given. -/
theorem weights_iff_counterexample :
    ¬ (Event.computeTfIdfWeights ∈
          (main (.parsed demoOptions) { demoEnv with numTotFeatures := 0 }).trace ↔
        demoOptions.weights = none) := by
  decide

/-- C4 as amended (loaded weights are never recomputed). In every run with
parsed options, `computeTfIdfWeights` is not invoked when a weights file was
given; in a run that gets past the population check it is invoked if and only
if no weights file was given; and when a weights file is given and loads, the
database calls of the run are, in order, the tree, `loadWeights` once,
`populateDatabase`, and (past the population check) the query call alone, so
no weight computation stands between the loaded weights and the queries. -/
theorem loaded_weights_not_recomputed (o : Options) (env : Env) :
    (o.weights.isSome = true →
        Event.computeTfIdfWeights ∉ (main (.parsed o) env).trace) ∧
    (env.treeLoads = true → (o.weights.isSome = true → env.weightsLoad = true) →
        env.numTotFeatures ≠ 0 →
        (Event.computeTfIdfWeights ∈ (main (.parsed o) env).trace ↔ o.weights = none)) ∧
    (∀ w, o.weights = some w → env.treeLoads = true → env.weightsLoad = true →
        databaseCalls (main (.parsed o) env).trace =
          [.loadTree o.tree, .loadWeights w,
            .populateDatabase o.keylist o.featuresFolder o.Nmax] ++
          (if env.numTotFeatures = 0 then [] else [queryCall o env])) := by
  have hmem := mem_databaseCalls_iff (main (.parsed o) env).trace
    Event.computeTfIdfWeights rfl
  have hcalls := main_databaseCalls o env
  have hq := queryCall_ne_compute o env
  refine ⟨?_, ?_, ?_⟩
  · intro hw
    rw [← hmem, hcalls]
    cases ht : env.treeLoads
    · simp
    · cases hl : env.weightsLoad
      · simp [hw]
      · by_cases h0 : env.numTotFeatures = 0
        · simp [hw, h0]
        · simp [hw, h0, hq]
  · intro ht hl h0
    rw [← hmem, hcalls]
    cases hw : o.weights with
    | none => simp [ht, h0]
    | some w =>
      have hl2 : env.weightsLoad = true := hl (by simp [hw])
      simp [ht, hl2, h0, hq]
  · intro w hw ht hl
    rw [hcalls]
    by_cases h0 : env.numTotFeatures = 0
    · simp [hw, ht, hl, h0]
    · simp [hw, ht, hl, h0]

/-- Witness of amended C4: a run with the weights file `voc.weights` and a
run without one, both past the population check. -/
theorem loaded_weights_not_recomputed_witness :
    Event.computeTfIdfWeights ∉
      (main (.parsed { demoOptions with weights := some "voc.weights" }) demoEnv).trace ∧
    Event.computeTfIdfWeights ∈ (main (.parsed demoOptions) demoEnv).trace ∧
    databaseCalls
        (main (.parsed { demoOptions with weights := some "voc.weights" }) demoEnv).trace =
      [.loadTree "voc.tree", .loadWeights "voc.weights", .populateDatabase "sfm.json" "" 0,
        .sanityCheck 10] :=
  ⟨(loaded_weights_not_recomputed { demoOptions with weights := some "voc.weights" }
      demoEnv).1 rfl,
    ((loaded_weights_not_recomputed demoOptions demoEnv).2.1 rfl (by decide) (by decide)).mpr rfl,
    (loaded_weights_not_recomputed { demoOptions with weights := some "voc.weights" }
      demoEnv).2.2 "voc.weights" rfl rfl rfl⟩

/-- C5 (result-count sentinel). In a run that reaches the query stage (tree
and weights loaded, population not empty) a result count is handed to
`sanityCheck` (no query list) or to `queryDatabase` (query list given), and
every count handed to either is `db.size()` when `--results` is 0 and the
requested count otherwise; for a database with at least one document it is not
0. The collaborator is run on that very count: the result map the run goes on
with is the map `sanityCheck` fills for it, and with a query list the maps
`queryDatabase` fills for it (or the run ends there when it throws). -/
theorem result_count_sentinel (o : Options) (env : Env) (ht : env.treeLoads = true)
    (hl : o.weights.isSome = true → env.weightsLoad = true)
    (hn : env.numTotFeatures ≠ 0) :
    (o.querylist = none →
        Event.sanityCheck (if o.results = 0 then env.dbSize else o.results) ∈
          (main (.parsed o) env).trace) ∧
    (∀ q, o.querylist = some q →
        Event.queryDatabase q o.featuresFolder (if o.results = 0 then env.dbSize else o.results)
          o.distance o.Nmax ∈ (main (.parsed o) env).trace) ∧
    (∀ n, Event.sanityCheck n ∈ (main (.parsed o) env).trace →
        n = if o.results = 0 then env.dbSize else o.results) ∧
    (∀ q f n d m, Event.queryDatabase q f n d m ∈ (main (.parsed o) env).trace →
        n = if o.results = 0 then env.dbSize else o.results) ∧
    (0 < env.dbSize → ∀ n, (Event.sanityCheck n ∈ (main (.parsed o) env).trace ∨
        ∃ q f d m, Event.queryDatabase q f n d m ∈ (main (.parsed o) env).trace) → n ≠ 0) ∧
    (o.querylist = none →
      ∃ tr, main (.parsed o) env =
        outDirSetup o env
          (env.sanityCheck (if o.results = 0 then env.dbSize else o.results)) []
          (tr ++ [Event.sanityCheck (if o.results = 0 then env.dbSize else o.results)])) ∧
    (∀ q, o.querylist = some q →
      ∃ tr, main (.parsed o) env =
        match env.queryDatabase q o.featuresFolder
            (if o.results = 0 then env.dbSize else o.results) o.distance o.Nmax with
        | none =>
          ⟨tr ++ [Event.queryDatabase q o.featuresFolder
            (if o.results = 0 then env.dbSize else o.results) o.distance o.Nmax],
            .uncaughtException "queryDatabase"⟩
        | some (allDocMatches, histograms) =>
          outDirSetup o env allDocMatches histograms
            (tr ++ [Event.queryDatabase q o.featuresFolder
              (if o.results = 0 then env.dbSize else o.results) o.distance o.Nmax])) := by
  have hcalls := main_databaseCalls o env
  have hs : ∀ n, Event.sanityCheck n ∈ (main (.parsed o) env).trace →
      n = if o.results = 0 then env.dbSize else o.results := by
    intro n hmem
    rw [← mem_databaseCalls_iff _ (Event.sanityCheck n) rfl, hcalls] at hmem
    unfold queryCall at hmem
    cases hw : o.weights <;> cases hq : o.querylist <;> cases hwl : env.weightsLoad <;>
      simp [ht, hn, hw, hq, hwl] at hmem hl <;> exact hmem
  have hqd : ∀ q f n d m, Event.queryDatabase q f n d m ∈ (main (.parsed o) env).trace →
      n = if o.results = 0 then env.dbSize else o.results := by
    intro q f n d m hmem
    rw [← mem_databaseCalls_iff _ (Event.queryDatabase q f n d m) rfl, hcalls] at hmem
    unfold queryCall at hmem
    cases hw : o.weights <;> cases hq : o.querylist <;> cases hwl : env.weightsLoad <;>
      simp [ht, hn, hw, hq, hwl] at hmem hl <;> exact hmem.2.2.1
  refine ⟨?_, ?_, hs, hqd, ?_, ?_, ?_⟩
  · intro hq
    rw [← mem_databaseCalls_iff _ (Event.sanityCheck _) rfl, hcalls]
    unfold queryCall
    cases hw : o.weights <;> cases hwl : env.weightsLoad <;>
      simp [ht, hn, hw, hq, hwl] at hl ⊢
  · intro q hq
    rw [← mem_databaseCalls_iff _ (Event.queryDatabase _ _ _ _ _) rfl, hcalls]
    unfold queryCall
    cases hw : o.weights <;> cases hwl : env.weightsLoad <;>
      simp [ht, hn, hw, hq, hwl] at hl ⊢
  · intro hpos n hmem
    have hk : n = if o.results = 0 then env.dbSize else o.results := by
      rcases hmem with h | ⟨q, f, d, m, h⟩
      · exact hs n h
      · exact hqd q f n d m h
    rw [hk]
    split
    · exact Nat.ne_of_gt hpos
    · assumption
  · intro hq
    obtain ⟨tr, htr⟩ := main_reaches_queryStage o env ht hl hn
    obtain ⟨tr2, htr2⟩ := queryStage_sanityCheck o env tr hq
    exact ⟨tr2, htr.trans htr2⟩
  · intro q hq
    obtain ⟨tr, htr⟩ := main_reaches_queryStage o env ht hl hn
    obtain ⟨tr2, htr2⟩ := queryStage_queryDatabase o env tr q hq
    exact ⟨tr2, htr.trans htr2⟩

/-- Witness of C5: the sanity-check run asked for all results (`--results 0`)
on a two-document database whose sanity check returns as many matches as the
count it is handed: the count 2 is logged, the run goes on with the map filled
for the count 2, and the best-match line reports 2 matches. -/
theorem result_count_sentinel_witness :
    (countingEnv.treeLoads = true ∧ countingEnv.numTotFeatures ≠ 0) ∧
    Event.sanityCheck 2 ∈
      (main (.parsed { demoOptions with results := 0 }) countingEnv).trace ∧
    (∃ tr, main (.parsed { demoOptions with results := 0 }) countingEnv =
      outDirSetup { demoOptions with results := 0 } countingEnv
        (countingEnv.sanityCheck 2) [] (tr ++ [Event.sanityCheck 2])) ∧
    Event.logBest 0 2 ⟨0, 1⟩ ∈
      (main (.parsed { demoOptions with results := 0 }) countingEnv).trace :=
  ⟨⟨rfl, by decide⟩,
    (result_count_sentinel { demoOptions with results := 0 } countingEnv rfl (by decide)
      (by decide)).1 rfl,
    (result_count_sentinel { demoOptions with results := 0 } countingEnv rfl (by decide)
      (by decide)).2.2.2.2.2.1 rfl,
    by decide⟩

/-! ## C6, C9: the sanity-check mode -/

/-- C6, the code at the failing input: without a query list and with the
distance name `noSuchMetric`, the run still executes the sanity-check queries,
and it is the very run obtained with the default name `strongCommonPoints`:
the name is never handed to `sanityCheck`. -/
theorem unknown_metric_ignored_by_sanity_check :
    Event.sanityCheck 10 ∈
      (main (.parsed { demoOptions with distance := "noSuchMetric" }) demoEnv).trace ∧
    main (.parsed { demoOptions with distance := "noSuchMetric" }) demoEnv =
      main (.parsed demoOptions) demoEnv ∧
    (main (.parsed { demoOptions with distance := "noSuchMetric" })
      { demoEnv with sfmLoad := fun _ _ => some [(0, "a.jpg"), (1, "b.jpg")] }).outcome =
      .EXIT_SUCCESS := by
  decide

/-- C9, the code at the failing input: without a query list, with the tree
loaded and three descriptors ingested, the run performs the sanity check and
then ends with `EXIT_FAILURE` on the load from the empty query-list path,
before any match or wrong-match count is reported; with the same options and
collaborators except that this load succeeds, the run ends with
`EXIT_SUCCESS`. -/
theorem sanity_check_run_stops_at_query_list_load :
    demoOptions.querylist = none ∧ demoEnv.treeLoads = true ∧ demoEnv.numTotFeatures = 3 ∧
    demoEnv.sfmLoad "" .VIEWS_INTRINSICS = none ∧
    main (.parsed demoOptions) demoEnv =
      ⟨[.loadTree "voc.tree", .populateDatabase "sfm.json" "" 0, .computeTfIdfWeights,
        .sanityCheck 10, .sfmLoad "" .VIEWS_INTRINSICS,
        .cerr "The input SfMData file \"\" cannot be read."], .EXIT_FAILURE⟩ ∧
    (main (.parsed demoOptions)
      { demoEnv with sfmLoad := fun _ _ => some [(0, "a.jpg"), (1, "b.jpg")] }).outcome =
      .EXIT_SUCCESS ∧
    Event.wrongTotal 1 ∈ (main (.parsed demoOptions)
      { demoEnv with sfmLoad := fun _ _ => some [(0, "a.jpg"), (1, "b.jpg")] }).trace := by
  decide

/-! ## C7, C8: the reporting loop -/

/-- C8 (sanity-check wrong-match count). Without an output folder the
reporting loop runs to its end on every result map whose match lists are
non-empty; and whenever the loop runs to its end on a result map, in
sanity-check mode the final `wrong` is the number of documents whose
first-ranked match has another id, it is 0 exactly when every document's
first-ranked match is the document itself, the report is then
`no wrong matches!` and otherwise the count; in query mode `wrong` stays 0 and
nothing is reported about it. -/
theorem sanity_wrong_count (c : Ctx) (allDocMatches : List (DocId × DocMatches))
    (tr0 : List Event) :
    (c.withOutDir = false → (∀ d ∈ allDocMatches, d.2 ≠ []) →
      ∃ s, reportLoop c allDocMatches ⟨tr0, 0⟩ = .ok s) ∧
    (∀ s, reportLoop c allDocMatches ⟨tr0, 0⟩ = .ok s →
      (c.withQuery = false →
        s.wrong = allDocMatches.countP specWrongMatch ∧
        (s.wrong = 0 ↔
          ∀ d ∈ allDocMatches, ∃ best, d.2.head? = some best ∧ best.id = d.1) ∧
        (s.wrong = 0 → (finish c s).trace =
          s.trace ++ Event.noWrongMatches :: (if c.withOutput = true then [.closeOutfile] else [])) ∧
        (s.wrong ≠ 0 → (finish c s).trace =
          s.trace ++ Event.wrongTotal s.wrong ::
            (if c.withOutput = true then [.closeOutfile] else []))) ∧
      (c.withQuery = true →
        s.wrong = 0 ∧
        (finish c s).trace = s.trace ++ (if c.withOutput = true then [.closeOutfile] else []))) := by
  refine ⟨fun hout hne => reportLoop_ok c hout allDocMatches _ hne, ?_⟩
  intro s hs
  have hne := reportLoop_ok_ne_nil c allDocMatches _ s hs
  have hw := reportLoop_wrong c allDocMatches _ s hs
  simp only [Nat.zero_add] at hw
  constructor
  · intro hq
    simp only [hq, if_true] at hw
    refine ⟨hw, ?_, ?_, ?_⟩
    · rw [hw, List.countP_eq_zero]
      constructor
      · intro h d hd
        have hd2 := h d hd
        obtain ⟨doc, ms⟩ := d
        cases ms with
        | nil => exact absurd rfl (hne _ hd)
        | cons b t =>
          refine ⟨b, rfl, ?_⟩
          simp only [specWrongMatch, List.head?_cons, ne_eq, decide_not, Bool.not_eq_true',
            decide_eq_false_iff_not, not_not, Bool.not_eq_true] at hd2
          simpa using hd2.symm
      · intro h d hd
        obtain ⟨best, hb, hid⟩ := h d hd
        simp [specWrongMatch, hb, hid]
    · intro h0
      unfold finish
      cases c.withOutput <;> simp [hq, h0]
    · intro h0
      unfold finish
      cases c.withOutput <;> simp [hq, h0]
  · intro hq
    simp only [hq, Bool.true_eq_false, if_false] at hw
    refine ⟨hw, ?_⟩
    unfold finish
    cases c.withOutput <;> simp [hq]

/-- Witness of C8: the sanity check of two documents, the second of which
ranks document 0 first. -/
theorem sanity_wrong_count_witness :
    ∃ s, reportLoop sanityCtx [(0, [⟨0, 9⟩, ⟨1, 4⟩]), (1, [⟨0, 5⟩, ⟨1, 5⟩])] ⟨[], 0⟩ = .ok s ∧
      s.wrong = 1 := by
  obtain ⟨s, hs⟩ := (sanity_wrong_count sanityCtx
    [(0, [⟨0, 9⟩, ⟨1, 4⟩]), (1, [⟨0, 5⟩, ⟨1, 5⟩])] []).1 rfl (by decide)
  refine ⟨s, hs, ?_⟩
  rw [((sanity_wrong_count sanityCtx
    [(0, [⟨0, 9⟩, ⟨1, 4⟩]), (1, [⟨0, 5⟩, ⟨1, 5⟩])] []).2 s hs).1 rfl |>.1]
  decide

/-! ## C10: the document map -/

/-- C10, the claim as stated fails: the document map of the collection
`{0: {3: [1]}}` is the text `d{0} = [3, ]`, which holds no descriptor index,
and it is also the document map of `{0: {3: [2, 5]}}`; the sparse histogram
cannot be recovered from it. -/
theorem document_map_counterexample :
    (saveSparseHistogramPerImage true [(0, [(3, [1])])]).2 = "d\x7b0\x7d = [3, ]\n" ∧
    saveSparseHistogramPerImage true [(0, [(3, [1])])] =
      saveSparseHistogramPerImage true [(0, [(3, [2, 5])])] ∧
    ([(0, [(3, [1])])] : SparseHistogramPerImage) ≠ [(0, [(3, [2, 5])])] := by
  decide

/-- C10 as amended (document-map dump content). For a collection that is a
well-formed map of well-formed histograms, written to a file that opens: the
text is the entries of the documents one after the other in map order; read
back, it gives exactly one entry per document, document ids strictly
ascending, each with every visual-word id of that document, strictly
ascending; and the text is the same for any collection with the same documents
and word ids, whatever the descriptor indices. A file that does not open gets
no text and the result is `false`. -/
theorem document_map_content (docs : SparseHistogramPerImage) (hdocs : WellFormed docs)
    (hhist : ∀ d ∈ docs, WellFormed d.2) :
    (saveSparseHistogramPerImage true docs).1 = true ∧
    (saveSparseHistogramPerImage true docs).2.data = (docs.map documentChars).flatten ∧
    (∃ entries, readDocumentMap (saveSparseHistogramPerImage true docs).2 = some entries ∧
      entries = docs.map (fun d => (d.1, d.2.map Prod.fst)) ∧
      entries.length = docs.length ∧
      (entries.map Prod.fst).Pairwise (fun a b => a < b) ∧
      ∀ e ∈ entries, e.2.Pairwise (fun a b => a < b)) ∧
    (∀ docs2 : SparseHistogramPerImage,
      docs2.map (fun d => (d.1, d.2.map Prod.fst)) = docs.map (fun d => (d.1, d.2.map Prod.fst)) →
      saveSparseHistogramPerImage true docs2 = saveSparseHistogramPerImage true docs) ∧
    saveSparseHistogramPerImage false docs = (false, "") := by
  refine ⟨rfl, save_data docs, ?_, ?_, rfl⟩
  · refine ⟨_, readDocumentMap_save docs, rfl, by simp, ?_, ?_⟩
    · have : (docs.map (fun d => (d.1, d.2.map Prod.fst))).map Prod.fst = docs.map Prod.fst := by
        simp [List.map_map, Function.comp_def]
      rw [this]
      exact hdocs
    · intro e he
      obtain ⟨d, hd, rfl⟩ := List.mem_map.mp he
      exact hhist d hd
  · intro docs2 h
    have hdata : (saveSparseHistogramPerImage true docs2).2.data =
        (saveSparseHistogramPerImage true docs).2.data := by
      rw [save_data, save_data]
      have hmap : ∀ ds : SparseHistogramPerImage, ds.map documentChars =
          (ds.map (fun d => (d.1, d.2.map Prod.fst))).map
            (fun e => documentChars (e.1, e.2.map (fun w => (w, [])))) := by
        intro ds
        rw [List.map_map]
        apply List.map_congr_left
        intro d _
        exact documentChars_words d
      rw [hmap docs2, hmap docs, h]
    have h2 : (saveSparseHistogramPerImage true docs2).2 =
        (saveSparseHistogramPerImage true docs).2 := String.ext hdata
    exact Prod.ext rfl h2

/-- Witness of amended C10 on the two-document collection
`{0: {1: [0], 2: [1, 2]}, 1: {1: [0]}}`. -/
theorem document_map_content_witness :
    (WellFormed ([(0, [(1, [0]), (2, [1, 2])]), (1, [(1, [0])])] : SparseHistogramPerImage) ∧
      ∀ d ∈ ([(0, [(1, [0]), (2, [1, 2])]), (1, [(1, [0])])] : SparseHistogramPerImage),
        WellFormed d.2) ∧
    readDocumentMap (saveSparseHistogramPerImage true
      [(0, [(1, [0]), (2, [1, 2])]), (1, [(1, [0])])]).2 = some [(0, [1, 2]), (1, [1])] :=
  ⟨⟨by decide, by decide⟩, by
    obtain ⟨entries, hread, hentries, _⟩ :=
      (document_map_content [(0, [(1, [0]), (2, [1, 2])]), (1, [(1, [0])])]
        (by decide) (by decide)).2.2.1
    rw [hread, hentries]
    rfl⟩

/-! ## C11: the names of the symbolic links -/

/-- C11, the code at the failing input: in the query run with an output
folder, the link created for the match at rank 0 of query document 0 (image
`b.jpg`, score printed as `1.000000`) is named `0000.1.000000.b.jpg`, with the
score between the rank and the file name, and no link named `0000.b.jpg`
(`matchNumber.filename`) is created. The rendering of the rank itself is as
claimed: `myToString(j, 4)` has at least 4 characters, exactly 4 below 10000,
and reads back as `j`. -/
theorem symlink_name_holds_score :
    Event.createSymlink "b.jpg" "out/a.jpg/0000.1.000000.b.jpg" ∈
      (main (.parsed { demoOptions with querylist := some "dir/q.json", outdir := some "out" })
        demoEnv).trace ∧
    Event.createSymlink "b.jpg" "out/a.jpg/0000.b.jpg" ∉
      (main (.parsed { demoOptions with querylist := some "dir/q.json", outdir := some "out" })
        demoEnv).trace ∧
    myToString 0 4 ++ "." ++ demoEnv.filename "b.jpg" = "0000.b.jpg" ∧
    (∀ j : Nat, 4 ≤ (myToString j 4).length ∧
      (j < 10000 → (myToString j 4).length = 4) ∧
      readNat (myToString j 4).data = some (j, [])) := by
  refine ⟨by decide, by decide, by decide, ?_⟩
  intro j
  refine ⟨?_, ?_, myToString_read j 4⟩
  · rw [myToString_length]
    omega
  · intro hj
    rw [myToString_length]
    have := decimal_length_le 4 j (by omega) (by simpa using hj)
    omega

/-! ## C12: one-to-one correspondences -/

/-- C12 (correspondences are one-to-one). For a current histogram that is a
well-formed map, when both histograms satisfy the partition invariant, no two
matches emitted by the correspondence loop share their left descriptor index
and no two share their right descriptor index. -/
theorem correspondences_one_to_one (cur cmp : SparseHistogram) (hcur : WellFormed cur)
    (hpl : PartitionInvariant cur) (hpr : PartitionInvariant cmp) :
    (featureMatches cur cmp).Pairwise (fun a b => a.i ≠ b.i) ∧
    (featureMatches cur cmp).Pairwise (fun a b => a.j ≠ b.j) := by
  have hkeys : cur.Pairwise (fun a b => a.1 < b.1) := List.pairwise_map.mp hcur
  rw [featureMatches_eq_filterMap]
  constructor
  · rw [List.pairwise_filterMap]
    refine List.Pairwise.imp_of_mem ?_ hkeys
    intro a b ha hb hlt m hm m2 hm2 heq
    obtain ⟨hai, _⟩ := leafPair_some cmp a m hm
    obtain ⟨hbi, _⟩ := leafPair_some cmp b m2 hm2
    have hmem1 : m.i ∈ a.2 := by rw [hai]; exact List.mem_singleton_self _
    have hmem2 : m.i ∈ b.2 := by rw [hbi, heq]; exact List.mem_singleton_self _
    exact absurd (hpl a ha b hb m.i hmem1 hmem2) (Nat.ne_of_lt hlt)
  · rw [List.pairwise_filterMap]
    refine List.Pairwise.imp_of_mem ?_ hkeys
    intro a b _ _ hlt m hm m2 hm2 heq
    obtain ⟨_, haj⟩ := leafPair_some cmp a m hm
    obtain ⟨_, hbj⟩ := leafPair_some cmp b m2 hm2
    have hin1 : (a.1, [m.j]) ∈ cmp := mem_of_find cmp a.1 [m.j] haj
    have hin2 : (b.1, [m2.j]) ∈ cmp := mem_of_find cmp b.1 [m2.j] hbj
    exact absurd (hpr (a.1, [m.j]) hin1 (b.1, [m2.j]) hin2 m.j (List.mem_singleton_self _)
      (by rw [heq]; exact List.mem_singleton_self _)) (Nat.ne_of_lt hlt)

/-- Witness of C12 on the histograms `{0:[4], 1:[5,6], 2:[7], 3:[8]}` and
`{0:[9], 1:[1], 2:[2,3], 3:[0]}`, which emit the matches (4, 9) and (8, 0). -/
theorem correspondences_one_to_one_witness :
    (WellFormed ([(0, [4]), (1, [5, 6]), (2, [7]), (3, [8])] : SparseHistogram) ∧
      PartitionInvariant [(0, [4]), (1, [5, 6]), (2, [7]), (3, [8])] ∧
      PartitionInvariant [(0, [9]), (1, [1]), (2, [2, 3]), (3, [0])]) ∧
    featureMatches [(0, [4]), (1, [5, 6]), (2, [7]), (3, [8])]
      [(0, [9]), (1, [1]), (2, [2, 3]), (3, [0])] = [⟨4, 9⟩, ⟨8, 0⟩] ∧
    (featureMatches [(0, [4]), (1, [5, 6]), (2, [7]), (3, [8])]
      [(0, [9]), (1, [1]), (2, [2, 3]), (3, [0])]).Pairwise (fun a b => a.i ≠ b.i) ∧
    (featureMatches [(0, [4]), (1, [5, 6]), (2, [7]), (3, [8])]
      [(0, [9]), (1, [1]), (2, [2, 3]), (3, [0])]).Pairwise (fun a b => a.j ≠ b.j) :=
  ⟨⟨by decide, by decide, by decide⟩, by decide,
    correspondences_one_to_one _ _ (by decide) (by decide) (by decide)⟩

/-! ## C13: the read of the best match -/

/-- C13 (best-match read is in bounds), against the database library as the
specification describes it. When the collaborators behave as `SpecDatabase`
says and the population check is passed, every entry of the result map that
the sanity check or the queries hand to the reporting loop has a non-empty
match list, and the run does not end on a read of `matches[0]` outside the
list. -/
theorem best_match_in_bounds (o : Options) (env : Env) (hspec : SpecDatabase env)
    (hpop : env.numTotFeatures ≠ 0) :
    (o.querylist = none →
      ∀ d ∈ env.sanityCheck (if o.results = 0 then env.dbSize else o.results), d.2 ≠ []) ∧
    (∀ q allDocMatches histograms, o.querylist = some q →
      env.queryDatabase q o.featuresFolder (if o.results = 0 then env.dbSize else o.results)
        o.distance o.Nmax = some (allDocMatches, histograms) →
      ∀ d ∈ allDocMatches, d.2 ≠ []) ∧
    (main (.parsed o) env).inBounds := by
  have hpos := specDatabase_count_pos o env hspec hpop
  have hsanity : ∀ d ∈ env.sanityCheck (if o.results = 0 then env.dbSize else o.results),
      d.2 ≠ [] := by
    intro d hd hnil
    have hlen := hspec.2.2.1 _ d hd
    rw [hnil] at hlen
    simp only [List.length_nil] at hlen
    omega
  have hquery : ∀ q allDocMatches histograms,
      env.queryDatabase q o.featuresFolder (if o.results = 0 then env.dbSize else o.results)
        o.distance o.Nmax = some (allDocMatches, histograms) →
      ∀ d ∈ allDocMatches, d.2 ≠ [] := by
    intro q allDocMatches histograms h d hd hnil
    have hlen := hspec.2.2.2 _ _ _ _ _ _ _ h d hd
    rw [hnil] at hlen
    simp only [List.length_nil] at hlen
    omega
  refine ⟨fun _ => hsanity, fun q ms hs _ h => hquery q ms hs h, ?_⟩
  unfold main
  simp only
  unfold buildDatabase
  simp only
  repeat' split
  all_goals first
    | exact queryStage_inBounds _ _ _ hsanity hquery
    | (intro what hw; simp at hw)

/-- Witness of C13: the sanity-check run asked for all results
(`--results 0`) on collaborators that behave as the specification says; the
run reaches the reporting loop and reads the best match of document 0. -/
theorem best_match_in_bounds_witness :
    (SpecDatabase specEnv ∧ specEnv.numTotFeatures ≠ 0) ∧
    (main (.parsed { demoOptions with results := 0 }) specEnv).inBounds ∧
    Event.logBest 0 2 ⟨0, 9⟩ ∈ (main (.parsed { demoOptions with results := 0 }) specEnv).trace :=
  ⟨⟨specEnv_conforms, by decide⟩,
    (best_match_in_bounds { demoOptions with results := 0 } specEnv specEnv_conforms
      (by decide)).2.2,
    by decide⟩

end VoctreeQuery
